import Mathlib

/-! Flappy Bird (`game.js`): a shallow embedding and its properties.

The class `FlappyBird` of `game.js` is embedded as a record `Game` holding the
fields the simulation reads and writes, and each method becomes a function on
`Game`.

Modelling conventions:

* The number fields are rationals (`ℚ`); no `NaN` or infinity is among them.
  `score` and `frameCount` only ever hold `0` or the result of `++`, so they
  are natural numbers.
* Two readings of the arithmetic are given.  The methods `update`,
  `spawnPipe`, ... compute in exact arithmetic; this is what the code does
  wherever its operands and results are doubles that the operation produces
  without rounding (the bird's values are multiples of `1/2`, a pipe's `x` is
  an integer).  The methods `updateDouble`, `spawnPipeDouble`, ... round the
  result of every arithmetic operation to the nearest double, ties to even
  (`roundDouble`), as JavaScript does; they are used for the statements about
  the pipe heights, which are computed from `Math.random()` and are rounded.
  Overflow to infinity does not occur in the ranges considered and is not
  modelled in `roundDouble`.
* `Math.random()` is an explicit argument `r` of `update` and `spawnPipe`.
* The one slot of `localStorage` the game uses (`'flappyHighScore'`) is the
  field `localStorage`; `none` is an absent key.
* `highScore` is a JavaScript value: the constructor stores whatever string
  `getItem` returned, so it is either a number or a string, and `>` coerces it
  with `ToNumber`.
* The DOM (screens, text sinks) and the canvas drawing calls are not modelled.
-/

namespace FlappyBird

/-! ## Double arithmetic -/

/-- Round a rational to the nearest integer, a tie to the even neighbour. -/
def roundHalfEven (q : ℚ) : ℤ :=
  let f := ⌊q⌋
  let d := q - (f : ℚ)
  if d < 1 / 2 then f
  else if 1 / 2 < d then f + 1
  else if f % 2 = 0 then f else f + 1

/-- The spacing of the doubles around `x`: `2 ^ (e - 52)` with
`2 ^ e <= |x| < 2 ^ (e + 1)`, and the subnormal spacing `2 ^ (-1074)` below
`2 ^ (-1022)`. -/
def ulp (x : ℚ) : ℚ :=
  (2 : ℚ) ^ (max (Int.log 2 |x|) (-1022) - 52)

/-- The double nearest to `x`, a tie going to the even significand: the result
of a JavaScript arithmetic operation whose exact result is `x`. -/
def roundDouble (x : ℚ) : ℚ :=
  (roundHalfEven (x / ulp x) : ℚ) * ulp x

/-! ## JavaScript values and `ToNumber` -/

/-- The result of `ToNumber`: a finite number, an infinity, or `NaN`. -/
inductive JSNum where
  | nan
  | negInf
  | fin (q : ℚ)
  | posInf
  deriving DecidableEq, Repr

/-- The values `this.highScore` can hold: a number or a string. -/
inductive JSValue where
  | num (n : ℚ)
  | str (s : String)
  deriving DecidableEq, Repr

/-- The Number value of a mathematical value: the nearest double, or an
infinity when that is beyond the largest finite double. -/
def toDouble (q : ℚ) : JSNum :=
  if (2 : ℚ) ^ 1024 ≤ roundDouble q then JSNum.posInf
  else if roundDouble q ≤ -(2 : ℚ) ^ 1024 then JSNum.negInf
  else JSNum.fin (roundDouble q)

/-- The characters of `StrWhiteSpaceChar` (white space and line terminators). -/
def isStrWhiteSpaceChar (c : Char) : Bool :=
  let n := c.toNat
  n == 0x09 || n == 0x0A || n == 0x0B || n == 0x0C || n == 0x0D || n == 0x20 ||
  n == 0xA0 || n == 0x1680 || (0x2000 ≤ n && n ≤ 0x200A) || n == 0x2028 ||
  n == 0x2029 || n == 0x202F || n == 0x205F || n == 0x3000 || n == 0xFEFF

/-- Strip leading and trailing `StrWhiteSpaceChar`s. -/
def trimWhiteSpace (cs : List Char) : List Char :=
  ((cs.dropWhile isStrWhiteSpaceChar).reverse.dropWhile isStrWhiteSpaceChar).reverse

/-- The value of a digit in the given base (`2`, `8`, `10` or `16`). -/
def digitValue (base : ℕ) (c : Char) : Option ℕ :=
  let n := c.toNat
  let v : Option ℕ :=
    if 48 ≤ n ∧ n ≤ 57 then some (n - 48)
    else if 97 ≤ n ∧ n ≤ 102 then some (n - 87)
    else if 65 ≤ n ∧ n ≤ 70 then some (n - 55)
    else none
  match v with
  | some d => if d < base then some d else none
  | none => none

/-- Read digits left to right onto an accumulator; `none` on a non-digit. -/
def parseDigitsAux (base : ℕ) : ℕ → List Char → Option ℕ
  | acc, [] => some acc
  | acc, c :: cs =>
    match digitValue base c with
    | some d => parseDigitsAux base (acc * base + d) cs
    | none => none

/-- A non-empty run of digits in the given base. -/
def parseDigits (base : ℕ) (cs : List Char) : Option ℕ :=
  match cs with
  | [] => none
  | _ => parseDigitsAux base 0 cs

/-- A possibly empty run of decimal digits (empty counts as `0`). -/
def parseDigitsOpt (cs : List Char) : Option ℕ :=
  parseDigitsAux 10 0 cs

/-- `SignedInteger` of an `ExponentPart`: optional sign, then decimal digits. -/
def parseSignedInteger (cs : List Char) : Option ℤ :=
  match cs with
  | '+' :: ds => (parseDigits 10 ds).map fun n => (n : ℤ)
  | '-' :: ds => (parseDigits 10 ds).map fun n => -(n : ℤ)
  | ds => (parseDigits 10 ds).map fun n => (n : ℤ)

/-- The part of `StrUnsignedDecimalLiteral` before the exponent:
`digits`, `digits.`, `digits.digits` or `.digits`. -/
def parseMantissa (cs : List Char) : Option ℚ :=
  let ip := cs.takeWhile (fun c => c != '.')
  match cs.dropWhile (fun c => c != '.') with
  | [] => (parseDigits 10 ip).map fun n => (n : ℚ)
  | _ :: fp =>
    if ip.isEmpty && fp.isEmpty then none
    else
      match parseDigitsOpt ip, parseDigitsOpt fp with
      | some i, some f => some ((i : ℚ) + (f : ℚ) / (10 : ℚ) ^ fp.length)
      | _, _ => none

/-- `StrUnsignedDecimalLiteral`: `Infinity`, or a mantissa with an optional
exponent part, read as the double nearest to its decimal value. -/
def parseUnsignedDecimal (cs : List Char) : JSNum :=
  if cs = "Infinity".toList then JSNum.posInf
  else
    let isExp : Char → Bool := fun c => c == 'e' || c == 'E'
    let m := cs.takeWhile (fun c => !isExp c)
    match cs.dropWhile (fun c => !isExp c) with
    | [] =>
      match parseMantissa m with
      | some q => toDouble q
      | none => JSNum.nan
    | _ :: ex =>
      match parseMantissa m, parseSignedInteger ex with
      | some q, some k => toDouble (q * (10 : ℚ) ^ k)
      | _, _ => JSNum.nan

/-- Negation of a `ToNumber` result. -/
def JSNum.neg : JSNum → JSNum
  | JSNum.nan => JSNum.nan
  | JSNum.negInf => JSNum.posInf
  | JSNum.fin q => JSNum.fin (-q)
  | JSNum.posInf => JSNum.negInf

/-- A `NonDecimalIntegerLiteral` body in the given base. -/
def parseNonDecimal (base : ℕ) (ds : List Char) : JSNum :=
  match parseDigits base ds with
  | some n => toDouble (n : ℚ)
  | none => JSNum.nan

/-- `StringToNumber`: trim white space; the empty string is `0`; otherwise a
binary, octal or hexadecimal integer literal, or a signed decimal literal;
anything else is `NaN`. -/
def stringToNumber (s : String) : JSNum :=
  match trimWhiteSpace s.toList with
  | [] => JSNum.fin 0
  | '0' :: 'x' :: ds => parseNonDecimal 16 ds
  | '0' :: 'X' :: ds => parseNonDecimal 16 ds
  | '0' :: 'o' :: ds => parseNonDecimal 8 ds
  | '0' :: 'O' :: ds => parseNonDecimal 8 ds
  | '0' :: 'b' :: ds => parseNonDecimal 2 ds
  | '0' :: 'B' :: ds => parseNonDecimal 2 ds
  | '+' :: ds => parseUnsignedDecimal ds
  | '-' :: ds => (parseUnsignedDecimal ds).neg
  | ds => parseUnsignedDecimal ds

/-- `ToNumber` on the values `highScore` can hold. -/
def toNumber : JSValue → JSNum
  | JSValue.num n => JSNum.fin n
  | JSValue.str s => stringToNumber s

/-- The comparison `score > v` of a number with a `ToNumber` result; any
comparison with `NaN` is false. -/
def gtNum (score : ℚ) : JSNum → Bool
  | JSNum.nan => false
  | JSNum.negInf => true
  | JSNum.fin q => decide (q < score)
  | JSNum.posInf => false

/-! ## The game state -/

/-- The three values `this.gameState` takes. -/
inductive GameState where
  | start
  | playing
  | gameOver
  deriving DecidableEq, Repr

/-- An axis-aligned rectangle, as read by `isColliding`. -/
structure Rect where
  x : ℚ
  y : ℚ
  width : ℚ
  height : ℚ
  deriving DecidableEq, Repr

/-- The object `this.bird`. -/
structure Bird where
  x : ℚ
  y : ℚ
  width : ℚ
  height : ℚ
  velocity : ℚ
  gravity : ℚ
  jump : ℚ
  rotation : ℚ
  deriving DecidableEq, Repr

/-- An element of `this.pipes`. -/
structure Pipe where
  x : ℚ
  topHeight : ℚ
  bottomY : ℚ
  bottomHeight : ℚ
  passed : Bool
  deriving DecidableEq, Repr

/-- The fields of a `FlappyBird` instance, the canvas size, and the storage
slot `'flappyHighScore'`. -/
structure Game where
  canvasWidth : ℚ
  canvasHeight : ℚ
  gameState : GameState
  score : ℕ
  highScore : JSValue
  bird : Bird
  pipes : List Pipe
  pipeWidth : ℚ
  pipeGap : ℚ
  pipeSpeed : ℚ
  pipeSpawnRate : ℕ
  frameCount : ℕ
  localStorage : Option String
  deriving DecidableEq, Repr

/-- The rectangle of the bird, the first argument of `isColliding`. -/
def Bird.toRect (b : Bird) : Rect :=
  { x := b.x, y := b.y, width := b.width, height := b.height }

/-- The top rectangle of a pipe, as built in `checkCollisions`. -/
def topRect (g : Game) (pipe : Pipe) : Rect :=
  { x := pipe.x, y := 0, width := g.pipeWidth, height := pipe.topHeight }

/-- The bottom rectangle of a pipe, as built in `checkCollisions`. -/
def bottomRect (g : Game) (pipe : Pipe) : Rect :=
  { x := pipe.x, y := pipe.bottomY, width := g.pipeWidth, height := pipe.bottomHeight }

/-! ## The methods -/

/-- The constructor, given the content of the storage slot:
`highScore = localStorage.getItem('flappyHighScore') || 0`, where `null` and
the empty string are falsy. -/
def constructor (stored : Option String) : Game :=
  { canvasWidth := 400
    canvasHeight := 600
    gameState := GameState.start
    score := 0
    highScore :=
      match stored with
      | none => JSValue.num 0
      | some s => if s.isEmpty then JSValue.num 0 else JSValue.str s
    bird :=
      { x := 80, y := 250, width := 30, height := 30, velocity := 0,
        gravity := 1 / 2, jump := -5, rotation := 0 }
    pipes := []
    pipeWidth := 60
    pipeGap := 150
    pipeSpeed := 3
    pipeSpawnRate := 90
    frameCount := 0
    localStorage := stored }

/-- Method `startGame`. -/
def startGame (g : Game) : Game :=
  { g with
    gameState := GameState.playing
    bird := { g.bird with velocity := g.bird.jump } }

/-- Method `restart`. -/
def restart (g : Game) : Game :=
  { g with
    gameState := GameState.playing
    score := 0
    bird := { g.bird with y := 250, velocity := 0, rotation := 0 }
    pipes := []
    frameCount := 0 }

/-- Method `handleInput`. -/
def handleInput (g : Game) : Game :=
  match g.gameState with
  | GameState.start => startGame g
  | GameState.playing => { g with bird := { g.bird with velocity := g.bird.jump } }
  | GameState.gameOver => restart g

/-- Method `isColliding`. -/
def isColliding (rect1 rect2 : Rect) : Bool :=
  decide (rect1.x < rect2.x + rect2.width) &&
  decide (rect1.x + rect1.width > rect2.x) &&
  decide (rect1.y < rect2.y + rect2.height) &&
  decide (rect1.y + rect1.height > rect2.y)

/-- Method `gameOver`: the state becomes `gameOver`, and a score above the
high score replaces it and is written to the storage slot. -/
def gameOver (g : Game) : Game :=
  if gtNum (g.score : ℚ) (toNumber g.highScore) then
    { g with
      gameState := GameState.gameOver
      highScore := JSValue.num (g.score : ℚ)
      localStorage := some (toString g.score) }
  else
    { g with gameState := GameState.gameOver }

/-- Method `spawnPipe`, with `r` the value of `Math.random()`. -/
def spawnPipe (g : Game) (r : ℚ) : Game :=
  let minHeight : ℚ := 50
  let maxHeight : ℚ := g.canvasHeight - g.pipeGap - 100
  let topHeight : ℚ := r * (maxHeight - minHeight) + minHeight
  { g with
    pipes := g.pipes ++
      [{ x := g.canvasWidth
         topHeight := topHeight
         bottomY := topHeight + g.pipeGap
         bottomHeight := g.canvasHeight - (topHeight + g.pipeGap) - 50
         passed := false }] }

/-- One iteration of the loop of `updatePipes` at index `i`: move the pipe,
score it if it has just been passed, splice it out if it is off screen.  The
index is always in range when the loop runs; out of range nothing is done. -/
def updatePipesStep (g : Game) (i : ℕ) : Game :=
  match g.pipes[i]? with
  | none => g
  | some pipe =>
    let pipe1 : Pipe := { pipe with x := pipe.x - g.pipeSpeed }
    let scored : Bool := !pipe1.passed && decide (pipe1.x + g.pipeWidth < g.bird.x)
    let pipe2 : Pipe := if scored then { pipe1 with passed := true } else pipe1
    let score2 : ℕ := if scored then g.score + 1 else g.score
    let pipes2 : List Pipe := g.pipes.set i pipe2
    let pipes3 : List Pipe :=
      if pipe2.x + g.pipeWidth < 0 then pipes2.eraseIdx i else pipes2
    { g with pipes := pipes3, score := score2 }

/-- The loop `for (let i = ...; i >= 0; i--)` of `updatePipes`, with `k = i + 1`
the number of indices still to visit. -/
def updatePipesLoop : ℕ → Game → Game
  | 0, g => g
  | k + 1, g => updatePipesLoop k (updatePipesStep g k)

/-- Method `updatePipes`: the loop started at `i = pipes.length - 1`. -/
def updatePipes (g : Game) : Game :=
  updatePipesLoop g.pipes.length g

/-- The loop `for (const pipe of this.pipes)` of `checkCollisions`, over the
pipes still to test: the first hit calls `gameOver` and returns. -/
def checkCollisionsLoop (g : Game) : List Pipe → Game
  | [] => g
  | pipe :: rest =>
    if isColliding g.bird.toRect (topRect g pipe) then gameOver g
    else if isColliding g.bird.toRect (bottomRect g pipe) then gameOver g
    else checkCollisionsLoop g rest

/-- Method `checkCollisions`. -/
def checkCollisions (g : Game) : Game :=
  checkCollisionsLoop g g.pipes

/-- The physics lines of `update`: count the frame, add gravity to the
velocity, add the new velocity to `y`, recompute the rotation. -/
def updatePhysics (g : Game) : Game :=
  let velocity : ℚ := g.bird.velocity + g.bird.gravity
  { g with
    frameCount := g.frameCount + 1
    bird :=
      { g.bird with
        velocity := velocity
        y := g.bird.y + velocity
        rotation := min (max (velocity * 3) (-30)) 90 } }

/-- The test `this.frameCount % this.pipeSpawnRate === 0`; a remainder by `0`
is `NaN`, which is not `0`. -/
def spawnDue (g : Game) : Bool :=
  g.pipeSpawnRate != 0 && g.frameCount % g.pipeSpawnRate == 0

/-- The lines of `update` up to and including `this.updatePipes()`, in a
playing state. -/
def updateWorld (g : Game) (r : ℚ) : Game :=
  let g1 := updatePhysics g
  let g2 := if spawnDue g1 then spawnPipe g1 r else g1
  updatePipes g2

/-- The bounds test of `update`:
`bird.y + bird.height > canvas.height - 50 || bird.y < 0`. -/
def outOfBounds (g : Game) : Bool :=
  decide (g.bird.y + g.bird.height > g.canvasHeight - 50) || decide (g.bird.y < 0)

/-- Method `update`, with `r` the value `Math.random()` returns if it is
called in this frame. -/
def update (g : Game) (r : ℚ) : Game :=
  if g.gameState ≠ GameState.playing then g
  else
    let g3 := checkCollisions (updateWorld g r)
    if outOfBounds g3 then gameOver g3 else g3

/-! ## The methods in double arithmetic

The same methods with the result of every arithmetic operation rounded to the
nearest double.  `handleInput`, `startGame`, `restart` and `gameOver` do no
arithmetic and are shared. -/

/-- Method `spawnPipe` in double arithmetic, with `r` the value of
`Math.random()`. -/
def spawnPipeDouble (g : Game) (r : ℚ) : Game :=
  let minHeight : ℚ := 50
  let maxHeight : ℚ := roundDouble (roundDouble (g.canvasHeight - g.pipeGap) - 100)
  let topHeight : ℚ :=
    roundDouble (roundDouble (r * roundDouble (maxHeight - minHeight)) + minHeight)
  { g with
    pipes := g.pipes ++
      [{ x := g.canvasWidth
         topHeight := topHeight
         bottomY := roundDouble (topHeight + g.pipeGap)
         bottomHeight :=
           roundDouble (roundDouble (g.canvasHeight - roundDouble (topHeight + g.pipeGap)) - 50)
         passed := false }] }

/-- One iteration of the loop of `updatePipes` at index `i`, in double
arithmetic. -/
def updatePipesStepDouble (g : Game) (i : ℕ) : Game :=
  match g.pipes[i]? with
  | none => g
  | some pipe =>
    let pipe1 : Pipe := { pipe with x := roundDouble (pipe.x - g.pipeSpeed) }
    let scored : Bool :=
      !pipe1.passed && decide (roundDouble (pipe1.x + g.pipeWidth) < g.bird.x)
    let pipe2 : Pipe := if scored then { pipe1 with passed := true } else pipe1
    let score2 : ℕ := if scored then g.score + 1 else g.score
    let pipes2 : List Pipe := g.pipes.set i pipe2
    let pipes3 : List Pipe :=
      if roundDouble (pipe2.x + g.pipeWidth) < 0 then pipes2.eraseIdx i else pipes2
    { g with pipes := pipes3, score := score2 }

/-- The loop of `updatePipes` in double arithmetic, with `k = i + 1`. -/
def updatePipesLoopDouble : ℕ → Game → Game
  | 0, g => g
  | k + 1, g => updatePipesLoopDouble k (updatePipesStepDouble g k)

/-- Method `updatePipes` in double arithmetic. -/
def updatePipesDouble (g : Game) : Game :=
  updatePipesLoopDouble g.pipes.length g

/-- Method `isColliding` in double arithmetic. -/
def isCollidingDouble (rect1 rect2 : Rect) : Bool :=
  decide (rect1.x < roundDouble (rect2.x + rect2.width)) &&
  decide (roundDouble (rect1.x + rect1.width) > rect2.x) &&
  decide (rect1.y < roundDouble (rect2.y + rect2.height)) &&
  decide (roundDouble (rect1.y + rect1.height) > rect2.y)

/-- The loop of `checkCollisions` in double arithmetic. -/
def checkCollisionsLoopDouble (g : Game) : List Pipe → Game
  | [] => g
  | pipe :: rest =>
    if isCollidingDouble g.bird.toRect (topRect g pipe) then gameOver g
    else if isCollidingDouble g.bird.toRect (bottomRect g pipe) then gameOver g
    else checkCollisionsLoopDouble g rest

/-- Method `checkCollisions` in double arithmetic. -/
def checkCollisionsDouble (g : Game) : Game :=
  checkCollisionsLoopDouble g g.pipes

/-- The physics lines of `update` in double arithmetic. -/
def updatePhysicsDouble (g : Game) : Game :=
  let velocity : ℚ := roundDouble (g.bird.velocity + g.bird.gravity)
  { g with
    frameCount := g.frameCount + 1
    bird :=
      { g.bird with
        velocity := velocity
        y := roundDouble (g.bird.y + velocity)
        rotation := min (max (roundDouble (velocity * 3)) (-30)) 90 } }

/-- The bounds test of `update` in double arithmetic. -/
def outOfBoundsDouble (g : Game) : Bool :=
  decide (roundDouble (g.bird.y + g.bird.height) > roundDouble (g.canvasHeight - 50)) ||
    decide (g.bird.y < 0)

/-- Method `update` in double arithmetic, with `r` the value `Math.random()`
returns if it is called in this frame. -/
def updateDouble (g : Game) (r : ℚ) : Game :=
  if g.gameState ≠ GameState.playing then g
  else
    let g1 := updatePhysicsDouble g
    let g2 := if spawnDue g1 then spawnPipeDouble g1 r else g1
    let g3 := checkCollisionsDouble (updatePipesDouble g2)
    if outOfBoundsDouble g3 then gameOver g3 else g3

/-- The states the game can be in, in double arithmetic: the constructed game,
and every state obtained from it by `handleInput`, `restart` and `update` with
a random draw in `[0, 1)`. -/
inductive ReachableDouble : Game → Prop where
  | init (stored : Option String) : ReachableDouble (constructor stored)
  | byInput {g : Game} : ReachableDouble g → ReachableDouble (handleInput g)
  | byRestart {g : Game} : ReachableDouble g → ReachableDouble (restart g)
  | byUpdate {g : Game} (r : ℚ) :
    ReachableDouble g → 0 ≤ r → r < 1 → ReachableDouble (updateDouble g r)

/-- One frame of the simple player in double arithmetic, with the random draw
`2 ^ (-50)`. -/
def pilotDouble (g : Game) : Game :=
  updateDouble (if 250 ≤ g.bird.y then handleInput g else g) (1 / 2 ^ 50)

/-- The game after the first input and `n` frames of `pilotDouble`. -/
def flightDouble : ℕ → Game
  | 0 => handleInput (constructor none)
  | n + 1 => pilotDouble (flightDouble n)

/-- The heights of a pipe as `spawnPipeDouble` computes them from the gap and
the canvas height: `bottomY` is the double sum `topHeight + gap`; the double
evaluation of `topHeight + gap + bottomHeight + 50` is the canvas height; and
the exact sums are within `2 ^ (-45)` of `bottomY` and within `2 ^ (-43)` of
the canvas height. -/
def DoubleGeometry (gap height : ℚ) (pipe : Pipe) : Prop :=
  pipe.bottomY = roundDouble (pipe.topHeight + gap) ∧
  roundDouble (roundDouble (roundDouble (pipe.topHeight + gap) + pipe.bottomHeight) + 50)
    = height ∧
  |pipe.topHeight + gap - pipe.bottomY| ≤ (2 : ℚ) ^ (-45 : ℤ) ∧
  |pipe.topHeight + gap + pipe.bottomHeight + 50 - height| ≤ (2 : ℚ) ^ (-43 : ℤ)

/-! ## Vocabulary of the statements -/

/-- Whether `updatePipes` scores a pipe: it is not yet passed and its trailing
edge after the move, `x - pipeSpeed + pipeWidth`, is strictly left of `bird.x`. -/
def scoresNow (g : Game) (pipe : Pipe) : Bool :=
  !pipe.passed && decide (pipe.x - g.pipeSpeed + g.pipeWidth < g.bird.x)

/-- A pipe after one frame: moved left by `pipeSpeed`, and marked passed if it
was already or is scored now. -/
def movePipe (g : Game) (pipe : Pipe) : Pipe :=
  { pipe with x := pipe.x - g.pipeSpeed, passed := pipe.passed || scoresNow g pipe }

/-- Whether a pipe is kept in the list: `x + pipeWidth >= 0`. -/
def staysLive (g : Game) (pipe : Pipe) : Bool :=
  decide (0 ≤ pipe.x + g.pipeWidth)

/-- Whether the bird overlaps the top or the bottom rectangle of a pipe. -/
def hitsPipe (g : Game) (pipe : Pipe) : Bool :=
  isColliding g.bird.toRect (topRect g pipe) || isColliding g.bird.toRect (bottomRect g pipe)

/-- The pipe `spawnPipe` pushes, with `r` the value of `Math.random()`. -/
def newPipe (g : Game) (r : ℚ) : Pipe :=
  { x := g.canvasWidth
    topHeight := r * (g.canvasHeight - g.pipeGap - 100 - 50) + 50
    bottomY := r * (g.canvasHeight - g.pipeGap - 100 - 50) + 50 + g.pipeGap
    bottomHeight := g.canvasHeight - (r * (g.canvasHeight - g.pipeGap - 100 - 50) + 50 + g.pipeGap) - 50
    passed := false }

/-- The geometry of a pipe pair: the bottom segment starts `pipeGap` below the
top segment, and top height, gap, bottom height and the ground strip of `50`
add up to the canvas height. -/
def PipeGeometry (g : Game) (pipe : Pipe) : Prop :=
  pipe.bottomY = pipe.topHeight + g.pipeGap ∧
  pipe.topHeight + g.pipeGap + pipe.bottomHeight + 50 = g.canvasHeight

/-- One frame of a simple player: press the input when the bird is at or below
its starting height, then run `update` with the random draw `1/2`. -/
def pilot (g : Game) : Game :=
  update (if 250 ≤ g.bird.y then handleInput g else g) (1 / 2)

/-- The game after the first input and `n` frames of `pilot`. -/
def flight : ℕ → Game
  | 0 => handleInput (constructor none)
  | n + 1 => pilot (flight n)

/-- A playing state with the bird below the ground line. -/
def lowBird : Game :=
  { restart (constructor none) with bird := { (constructor none).bird with y := 540 } }

/-- The constants of the reference build, as the constructor sets them. -/
def ReferenceConstants (g : Game) : Prop :=
  g.canvasWidth = 400 ∧ g.canvasHeight = 600 ∧ g.pipeWidth = 60 ∧ g.pipeGap = 150 ∧
  g.pipeSpeed = 3 ∧ g.pipeSpawnRate = 90 ∧ g.bird.x = 80 ∧ g.bird.width = 30 ∧
  g.bird.height = 30 ∧ g.bird.gravity = 1 / 2 ∧ g.bird.jump = -5

/-- Two states with the same constants: canvas size, pipe parameters, and the
bird's `x`, size, gravity and jump. -/
def SameConstants (g g1 : Game) : Prop :=
  g1.canvasWidth = g.canvasWidth ∧ g1.canvasHeight = g.canvasHeight ∧
  g1.pipeWidth = g.pipeWidth ∧ g1.pipeGap = g.pipeGap ∧ g1.pipeSpeed = g.pipeSpeed ∧
  g1.pipeSpawnRate = g.pipeSpawnRate ∧ g1.bird.x = g.bird.x ∧
  g1.bird.width = g.bird.width ∧ g1.bird.height = g.bird.height ∧
  g1.bird.gravity = g.bird.gravity ∧ g1.bird.jump = g.bird.jump

/-- The states the game can be in: the constructed game, and every state
obtained from it by `handleInput`, `restart` and `update` with a random draw in
`[0, 1)`. -/
inductive Reachable : Game → Prop where
  | init (stored : Option String) : Reachable (constructor stored)
  | byInput {g : Game} : Reachable g → Reachable (handleInput g)
  | byRestart {g : Game} : Reachable g → Reachable (restart g)
  | byUpdate {g : Game} (r : ℚ) : Reachable g → 0 ≤ r → r < 1 → Reachable (update g r)

/-- The obstacle manager's `advance` as the specification words it: decrement
every pipe's `x` by the speed, mark the unscored pipes whose trailing edge has
passed the bird, then keep exactly the pipes with `x + pipeWidth >= 0`, in
order. -/
def advanceSpec (g : Game) : List Pipe :=
  (g.pipes.map fun p =>
    { p with
      x := p.x - g.pipeSpeed
      passed := p.passed ||
        (!p.passed && decide (p.x - g.pipeSpeed + g.pipeWidth < g.bird.x)) }).filter
    fun p => decide (p.x + g.pipeWidth ≥ 0)

/-- One frame of pipe movement on a bare pipe list, with the constants of `g`. -/
def stepPipes (g : Game) (ps : List Pipe) : List Pipe :=
  (ps.map (movePipe g)).filter (staysLive g)

/-- The method `updatePipes` called `n` times in a row. -/
def updatePipesTimes : ℕ → Game → Game
  | 0, g => g
  | n + 1, g => updatePipesTimes n (updatePipes g)

/-- A game whose canvas is only `200` high, too small for a gap of `150`. -/
def smallCanvas : Game :=
  { constructor none with canvasHeight := 200 }

/-- The calls that drive the game: an input event, a click on the restart
button, and one frame of the loop with the random draw it may consume. -/
inductive Op where
  | input
  | restart
  | update (r : ℚ)
  deriving DecidableEq, Repr

/-- The effect of one call on the game. -/
def Op.apply (g : Game) : Op → Game
  | Op.input => handleInput g
  | Op.restart => FlappyBird.restart g
  | Op.update r => FlappyBird.update g r

/-- The game after a sequence of calls. -/
def run (g : Game) : List Op → Game
  | [] => g
  | op :: ops => run (op.apply g) ops

/-- Every state a sequence of calls goes through, the first and the last
included, in order. -/
def statesAlong (g : Game) : List Op → List Game
  | [] => [g]
  | op :: ops => g :: statesAlong (op.apply g) ops

/-- The maximum of `h0` and the scores of the given states. -/
def maxScore (h0 : ℚ) (gs : List Game) : ℚ :=
  gs.foldl (fun m s => max m (s.score : ℚ)) h0

/-- Whether the random draw of a call, if it has one, lies in `[0, 1)`. -/
def Op.validDraw : Op → Bool
  | Op.update r => decide (0 ≤ r) && decide (r < 1)
  | _ => true

/-- Every random draw of the sequence lies in `[0, 1)`. -/
def ValidDraws (ops : List Op) : Prop :=
  ∀ op ∈ ops, op.validDraw = true

/-- The sequence stays within one session: no call of `restart`, and no input
in the `gameOver` state (which would restart). -/
def SameSession (g : Game) : List Op → Prop
  | [] => True
  | op :: ops =>
    op ≠ Op.restart ∧ (op = Op.input → g.gameState ≠ GameState.gameOver) ∧
      SameSession (op.apply g) ops

/-- Whether the restart button is only used outside the playing state. -/
def restartOnlyIdle (g : Game) : List Op → Bool
  | [] => true
  | op :: ops =>
    (op != Op.restart || g.gameState != GameState.playing) &&
      restartOnlyIdle (op.apply g) ops

/-- The shape of a pipe list at frame `f` in the reference build, with the
youngest pipe expected at `x0 - 3 (f mod 90)`: consecutive pipes are `270`
apart, every pipe whose trailing edge is left of the bird (`x + 60 < 80`) is
marked passed, and either no pipe has been spawned yet (`f < 90`) or the last
pipe of the list is the youngest one. -/
def PipeTrainAt (x0 : ℚ) (ps : List Pipe) (f : ℕ) : Prop :=
  List.Chain' (fun a b : Pipe => b.x = a.x + 270) ps ∧
  (∀ p ∈ ps, p.x + 60 < 80 → p.passed = true) ∧
  ((ps = [] ∧ f < 90) ∨
    ∃ (front : List Pipe) (p : Pipe),
      ps = front ++ [p] ∧ p.x = x0 - 3 * ((f % 90 : ℕ) : ℚ))

/-- The shape of the pipe list of a state after frame `f`: the youngest pipe,
spawned at `400` and moved once per frame since, is at `397 - 3 (f mod 90)`. -/
def PipeTrain (ps : List Pipe) (f : ℕ) : Prop :=
  PipeTrainAt 397 ps f

/-- The high score of `g` reads as a number `hv`, the running maximum `M` is
the larger of `hv` and the current score, and outside the playing state the
score has already been folded into the high score. -/
def TracksMax (g : Game) (M : ℚ) : Prop :=
  ∃ hv : ℚ, toNumber g.highScore = JSNum.fin hv ∧ M = max hv (g.score : ℚ) ∧
    (g.gameState ≠ GameState.playing → (g.score : ℚ) ≤ hv)

/-- The calls of the simple player over `n` frames from the state `g`. -/
def pilotOps : ℕ → Game → List Op
  | 0, _ => []
  | n + 1, g =>
    if 250 ≤ g.bird.y then Op.input :: Op.update (1 / 2) :: pilotOps n (pilot g)
    else Op.update (1 / 2) :: pilotOps n (pilot g)

/-- A sequence of calls that scores one point, presses the restart button
while still playing, and then lets the bird fall to the ground. -/
def crashOps : List Op :=
  Op.input :: pilotOps 216 (flight 0) ++ Op.restart :: List.replicate 40 (Op.update 0)

/-- A sequence of calls that scores one point, lets the bird fall to the
ground, presses the restart button on the game-over screen, and lets the bird
fall again. -/
def twoSessionOps : List Op :=
  Op.input :: pilotOps 216 (flight 0) ++ List.replicate 60 (Op.update 0) ++
    Op.restart :: List.replicate 40 (Op.update 0)

/-- Facts that hold in every reachable state of the reference build: the start
state is the constructed one; a playing state has the bird in bounds and clear
of every pipe; the velocity is at least the jump velocity and bounded through
`velocity ^ 2 <= 25 + y`; every pipe has its top height in `[50, 350)` and its
`x` of the form `397 - 3 j`. -/
def Sound (g : Game) : Prop :=
  (g.gameState = GameState.start → g.pipes = [] ∧ g.bird.y = 250) ∧
  (g.gameState = GameState.playing →
    0 ≤ g.bird.y ∧ g.bird.y + 30 ≤ 550 ∧ ∀ p ∈ g.pipes, hitsPipe g p = false) ∧
  -5 ≤ g.bird.velocity ∧
  g.bird.velocity ^ 2 ≤ 25 + g.bird.y ∧
  (∀ p ∈ g.pipes, 50 ≤ p.topHeight ∧ p.topHeight < 350) ∧
  (∀ p ∈ g.pipes, ∃ j : ℤ, p.x = 397 - 3 * (j : ℚ))

/-! ## Frame lemmas: what each method leaves alone -/

theorem gameOver_gameState (g : Game) : (gameOver g).gameState = GameState.gameOver := by
  unfold gameOver; split <;> rfl

theorem gameOver_frame (g : Game) :
    gameOver g = { g with
      gameState := GameState.gameOver
      highScore := (gameOver g).highScore
      localStorage := (gameOver g).localStorage } := by
  unfold gameOver; split <;> rfl

theorem checkCollisionsLoop_cases (g : Game) (ps : List Pipe) :
    checkCollisionsLoop g ps = g ∨ checkCollisionsLoop g ps = gameOver g := by
  induction ps with
  | nil => exact Or.inl rfl
  | cons p rest ih =>
    unfold checkCollisionsLoop
    split
    · exact Or.inr rfl
    · split
      · exact Or.inr rfl
      · exact ih

theorem checkCollisions_frame (g : Game) :
    checkCollisions g = { g with
      gameState := (checkCollisions g).gameState
      highScore := (checkCollisions g).highScore
      localStorage := (checkCollisions g).localStorage } := by
  unfold checkCollisions
  rcases checkCollisionsLoop_cases g g.pipes with h | h
  · rw [h]
  · rw [h, gameOver_gameState]; exact gameOver_frame g

/-! ## What the loop of `updatePipes` computes -/

theorem updatePipesStep_at (g : Game) (fs back : List Pipe) (p : Pipe)
    (h : g.pipes = fs ++ p :: back) :
    updatePipesStep g fs.length = { g with
      pipes := fs ++ (if staysLive g (movePipe g p) then movePipe g p :: back else back)
      score := if scoresNow g p then g.score + 1 else g.score } := by
  have hget : g.pipes[fs.length]? = some p := by
    rw [h, List.getElem?_append_right (le_refl _)]; simp
  unfold updatePipesStep
  rw [hget]
  simp only [h]
  have hsc : (!p.passed && decide (p.x - g.pipeSpeed + g.pipeWidth < g.bird.x))
      = scoresNow g p := rfl
  rw [hsc]
  have hmove : (if scoresNow g p = true then
        ({ p with x := p.x - g.pipeSpeed, passed := true } : Pipe)
      else { p with x := p.x - g.pipeSpeed }) = movePipe g p := by
    unfold movePipe
    cases hs : scoresNow g p
    · simp
    · simp
  rw [hmove]
  have hset : (fs ++ p :: back).set fs.length (movePipe g p) = fs ++ movePipe g p :: back := by
    simp
  have herase : (fs ++ movePipe g p :: back).eraseIdx fs.length = fs ++ back := by
    rw [List.eraseIdx_append_of_length_le (le_refl _)]; simp
  rw [hset, herase]
  by_cases hl : (movePipe g p).x + g.pipeWidth < 0
  · have : staysLive g (movePipe g p) = false := by
      simp [staysLive, hl]
    rw [if_pos hl, this]; simp
  · have : staysLive g (movePipe g p) = true := by
      simp [staysLive, not_lt.mp hl]
    rw [if_neg hl, this]; simp

theorem updatePipesLoop_append (fs : List Pipe) :
    ∀ (back : List Pipe) (g : Game), g.pipes = fs ++ back →
      updatePipesLoop fs.length g = { g with
        pipes := (fs.map (movePipe g)).filter (staysLive g) ++ back
        score := g.score + (fs.filter (scoresNow g)).length } := by
  induction fs using List.reverseRecOn with
  | nil =>
    intro back g h
    simp only [List.length_nil, updatePipesLoop, List.map_nil, List.filter_nil,
      List.nil_append, Nat.add_zero]
    rw [← List.nil_append back, ← h]
  | append_singleton fs p ih =>
    intro back g h
    have h1 : g.pipes = fs ++ p :: back := by rw [h]; simp
    rw [List.length_append, List.length_singleton]
    unfold updatePipesLoop
    rw [updatePipesStep_at g fs back p h1, ih _ _ rfl]
    have hp : (fs.map (movePipe g)).filter (staysLive g) ++
        (if staysLive g (movePipe g p) then movePipe g p :: back else back) =
        ((fs ++ [p]).map (movePipe g)).filter (staysLive g) ++ back := by
      cases hl : staysLive g (movePipe g p) <;> simp [List.filter_append, hl]
    have hsco : (if scoresNow g p then g.score + 1 else g.score) +
        (fs.filter (scoresNow g)).length =
        g.score + ((fs ++ [p]).filter (scoresNow g)).length := by
      cases hs : scoresNow g p
      · simp [List.filter_append, hs]
      · simp [List.filter_append, hs]; omega
    rw [← hp, ← hsco]
    rfl

/-- The result of `updatePipes`: every pipe is moved once, the pipes still on
screen are kept in order, and each pipe scored now counts once. -/
theorem updatePipes_eq (g : Game) :
    updatePipes g = { g with
      pipes := (g.pipes.map (movePipe g)).filter (staysLive g)
      score := g.score + (g.pipes.filter (scoresNow g)).length } := by
  unfold updatePipes
  rw [updatePipesLoop_append g.pipes [] g (by simp)]
  simp

/-! ## What `checkCollisions` and `update` compute -/

theorem checkCollisionsLoop_eq (g : Game) (ps : List Pipe) :
    checkCollisionsLoop g ps = if ps.any (hitsPipe g) then gameOver g else g := by
  induction ps with
  | nil => simp [checkCollisionsLoop]
  | cons p rest ih =>
    unfold checkCollisionsLoop
    rw [ih]
    simp only [List.any_cons, hitsPipe]
    by_cases h1 : isColliding g.bird.toRect (topRect g p) = true <;>
      by_cases h2 : isColliding g.bird.toRect (bottomRect g p) = true <;> simp [h1, h2]

theorem gameOver_withPipes (g : Game) (ps : List Pipe) :
    gameOver { g with pipes := ps } = { gameOver g with pipes := ps } := by
  unfold gameOver
  simp only []
  split <;> rfl

theorem updateWorld_frame (g : Game) (r : ℚ) :
    updateWorld g r = { g with
      frameCount := g.frameCount + 1
      bird := (updatePhysics g).bird
      pipes := (updateWorld g r).pipes
      score := (updateWorld g r).score } := by
  unfold updateWorld
  simp only []
  rw [updatePipes_eq]
  split <;> rfl

theorem update_playing (g : Game) (r : ℚ) (h : g.gameState = GameState.playing) :
    update g r =
      if outOfBounds (checkCollisions (updateWorld g r)) then
        gameOver (checkCollisions (updateWorld g r))
      else checkCollisions (updateWorld g r) := by
  unfold update
  rw [if_neg (by simp [h])]

theorem update_bird (g : Game) (r : ℚ) (h : g.gameState = GameState.playing) :
    (update g r).bird = (updatePhysics g).bird := by
  rw [update_playing g r h]
  have h0 := congrArg Game.bird (updateWorld_frame g r)
  have h1 := congrArg Game.bird (checkCollisions_frame (updateWorld g r))
  have h2 := congrArg Game.bird (gameOver_frame (checkCollisions (updateWorld g r)))
  simp only [] at h0 h1 h2
  split
  · rw [h2, h1, h0]
  · rw [h1, h0]

theorem outOfBounds_checkCollisions (g : Game) :
    outOfBounds (checkCollisions g) = outOfBounds g := by
  rw [checkCollisions_frame g]
  rfl

/-! ## Constants never change -/

theorem sameConstants_refl (g : Game) : SameConstants g g :=
  ⟨Eq.refl _, Eq.refl _, Eq.refl _, Eq.refl _, Eq.refl _, Eq.refl _, Eq.refl _, Eq.refl _,
    Eq.refl _, Eq.refl _, Eq.refl _⟩

theorem sameConstants_trans {a b c : Game} (h1 : SameConstants a b) (h2 : SameConstants b c) :
    SameConstants a c := by
  obtain ⟨a1, a2, a3, a4, a5, a6, a7, a8, a9, a10, a11⟩ := h1
  obtain ⟨b1, b2, b3, b4, b5, b6, b7, b8, b9, b10, b11⟩ := h2
  exact ⟨b1.trans a1, b2.trans a2, b3.trans a3, b4.trans a4, b5.trans a5, b6.trans a6,
    b7.trans a7, b8.trans a8, b9.trans a9, b10.trans a10, b11.trans a11⟩

theorem gameOver_sameConstants (g : Game) : SameConstants g (gameOver g) := by
  rw [gameOver_frame g]; exact sameConstants_refl g

theorem checkCollisions_sameConstants (g : Game) : SameConstants g (checkCollisions g) := by
  rw [checkCollisions_frame g]; exact sameConstants_refl g

theorem updateWorld_sameConstants (g : Game) (r : ℚ) : SameConstants g (updateWorld g r) := by
  rw [updateWorld_frame g r]; exact sameConstants_refl g

theorem restart_sameConstants (g : Game) : SameConstants g (restart g) :=
  sameConstants_refl g

theorem handleInput_sameConstants (g : Game) : SameConstants g (handleInput g) := by
  unfold handleInput
  split <;> exact sameConstants_refl g

theorem update_sameConstants (g : Game) (r : ℚ) : SameConstants g (update g r) := by
  by_cases h : g.gameState = GameState.playing
  · rw [update_playing g r h]
    have h1 := sameConstants_trans (updateWorld_sameConstants g r)
      (checkCollisions_sameConstants (updateWorld g r))
    split
    · exact sameConstants_trans h1 (gameOver_sameConstants _)
    · exact h1
  · unfold update
    rw [if_pos h]
    exact sameConstants_refl g

theorem referenceConstants_of_same {g g1 : Game} (h : ReferenceConstants g)
    (hs : SameConstants g g1) : ReferenceConstants g1 := by
  obtain ⟨a1, a2, a3, a4, a5, a6, a7, a8, a9, a10, a11⟩ := h
  obtain ⟨b1, b2, b3, b4, b5, b6, b7, b8, b9, b10, b11⟩ := hs
  exact ⟨b1.trans a1, b2.trans a2, b3.trans a3, b4.trans a4, b5.trans a5, b6.trans a6,
    b7.trans a7, b8.trans a8, b9.trans a9, b10.trans a10, b11.trans a11⟩

theorem constructor_referenceConstants (stored : Option String) :
    ReferenceConstants (constructor stored) :=
  ⟨Eq.refl _, Eq.refl _, Eq.refl _, Eq.refl _, Eq.refl _, Eq.refl _, Eq.refl _, Eq.refl _,
    Eq.refl _, Eq.refl _, Eq.refl _⟩

theorem reachable_referenceConstants {g : Game} (h : Reachable g) : ReferenceConstants g := by
  induction h with
  | init stored => exact constructor_referenceConstants stored
  | byInput _ ih => exact referenceConstants_of_same ih (handleInput_sameConstants _)
  | byRestart _ ih => exact referenceConstants_of_same ih (restart_sameConstants _)
  | byUpdate r _ _ _ ih => exact referenceConstants_of_same ih (update_sameConstants _ r)

/-! ## Pipes keep their geometry -/

theorem spawnPipe_eq (g : Game) (r : ℚ) :
    spawnPipe g r = { g with pipes := g.pipes ++ [newPipe g r] } := rfl

theorem newPipe_geometry (g : Game) (r : ℚ) : PipeGeometry g (newPipe g r) := by
  constructor
  · rfl
  · simp only [newPipe]; ring

theorem updateWorld_pipes (g : Game) (r : ℚ) :
    (updateWorld g r).pipes =
      ((if spawnDue (updatePhysics g) then g.pipes ++ [newPipe g r] else g.pipes).map
        (movePipe g)).filter (staysLive g) := by
  unfold updateWorld
  simp only []
  rw [updatePipes_eq]
  split <;> rfl

theorem update_pipes (g : Game) (r : ℚ) :
    (update g r).pipes =
      if g.gameState = GameState.playing then (updateWorld g r).pipes else g.pipes := by
  by_cases h : g.gameState = GameState.playing
  · rw [if_pos h, update_playing g r h]
    have h1 := congrArg Game.pipes (checkCollisions_frame (updateWorld g r))
    have h2 := congrArg Game.pipes (gameOver_frame (checkCollisions (updateWorld g r)))
    simp only [] at h1 h2
    split
    · rw [h2, h1]
    · rw [h1]
  · rw [if_neg h]
    unfold update
    rw [if_pos h]

theorem pipeGeometry_of_same {g g1 : Game} {pipe : Pipe} (h : PipeGeometry g pipe)
    (hs : SameConstants g g1) : PipeGeometry g1 pipe := by
  unfold PipeGeometry at h ⊢
  rw [hs.2.1, hs.2.2.2.1]
  exact h

theorem movePipe_geometry {g : Game} {pipe : Pipe} (h : PipeGeometry g pipe) :
    PipeGeometry g (movePipe g pipe) := h

theorem update_pipeGeometry (g : Game) (r : ℚ)
    (h : ∀ pipe ∈ g.pipes, PipeGeometry g pipe) :
    ∀ pipe ∈ (update g r).pipes, PipeGeometry (update g r) pipe := by
  intro pipe hmem
  refine pipeGeometry_of_same ?_ (update_sameConstants g r)
  rw [update_pipes] at hmem
  split at hmem
  · rw [updateWorld_pipes, List.mem_filter, List.mem_map] at hmem
    obtain ⟨⟨q, hq, rfl⟩, _⟩ := hmem
    apply movePipe_geometry
    split at hq
    · rw [List.mem_append, List.mem_singleton] at hq
      rcases hq with hq | hq
      · exact h q hq
      · rw [hq]; exact newPipe_geometry g r
    · exact h q hq
  · exact h pipe hmem

theorem handleInput_pipeGeometry (g : Game)
    (h : ∀ pipe ∈ g.pipes, PipeGeometry g pipe) :
    ∀ pipe ∈ (handleInput g).pipes, PipeGeometry (handleInput g) pipe := by
  unfold handleInput
  split
  · exact h
  · exact h
  · intro pipe hmem
    exact absurd hmem (List.not_mem_nil pipe)

theorem reachable_pipeGeometry {g : Game} (h : Reachable g) :
    ∀ pipe ∈ g.pipes, PipeGeometry g pipe := by
  induction h with
  | init stored => intro pipe hmem; exact absurd hmem (List.not_mem_nil pipe)
  | byInput _ ih => exact handleInput_pipeGeometry _ ih
  | byRestart _ _ => intro pipe hmem; exact absurd hmem (List.not_mem_nil pipe)
  | byUpdate r _ _ _ ih => exact update_pipeGeometry _ r ih

theorem pilot_reachable {g : Game} (h : Reachable g) : Reachable (pilot g) := by
  unfold pilot
  split
  · exact Reachable.byUpdate _ (Reachable.byInput h) (by norm_num) (by norm_num)
  · exact Reachable.byUpdate _ h (by norm_num) (by norm_num)

theorem flight_reachable (n : ℕ) : Reachable (flight n) := by
  induction n with
  | zero => exact Reachable.byInput (Reachable.init none)
  | succ n ih => exact pilot_reachable ih

/-! ## The claims -/

/-- C1. `isColliding(a, b)` holds exactly when the four strict inequalities of
the bounding-box test hold; rectangles that only touch along an edge do not
collide; the two reference examples evaluate to true and false. -/
theorem isColliding_iff_strict_overlap :
    (∀ a b : Rect, isColliding a b = true ↔
      (a.x < b.x + b.width ∧ a.x + a.width > b.x ∧
        a.y < b.y + b.height ∧ a.y + a.height > b.y)) ∧
    (∀ a b : Rect,
      (a.x + a.width = b.x ∨ b.x + b.width = a.x ∨
        a.y + a.height = b.y ∨ b.y + b.height = a.y) → isColliding a b = false) ∧
    isColliding ⟨0, 0, 10, 10⟩ ⟨5, 5, 10, 10⟩ = true ∧
    isColliding ⟨0, 0, 10, 10⟩ ⟨10, 0, 10, 10⟩ = false := by
  refine ⟨?_, ?_, ?_, ?_⟩
  · intro a b
    simp [isColliding, and_assoc]
  · intro a b h
    rw [Bool.eq_false_iff]
    intro hc
    simp only [isColliding, Bool.and_eq_true, decide_eq_true_eq] at hc
    obtain ⟨⟨⟨h1, h2⟩, h3⟩, h4⟩ := hc
    rcases h with h | h | h | h <;> linarith
  · simp [isColliding]; norm_num
  · simp [isColliding]

/-- C2. In a playing state one `update` adds the gravity to the velocity and
then adds the new velocity to `y`, whatever the pipes, the random draw and the
outcome of the collision and bounds checks; from `y = 250`, `velocity = 0`,
`gravity = 0.5` the results are `0.5` and `250.5`. -/
theorem update_velocity_then_position (g : Game) (r : ℚ)
    (h : g.gameState = GameState.playing) :
    (update g r).bird.velocity = g.bird.velocity + g.bird.gravity ∧
    (update g r).bird.y = g.bird.y + (update g r).bird.velocity ∧
    (g.bird.y = 250 → g.bird.velocity = 0 → g.bird.gravity = 1 / 2 →
      (update g r).bird.velocity = 1 / 2 ∧ (update g r).bird.y = 501 / 2) := by
  rw [update_bird g r h]
  refine ⟨rfl, rfl, ?_⟩
  intro hy hv hg
  simp only [updatePhysics, hy, hv, hg]
  norm_num

/-- Witness for C2 on the state right after a restart of the constructed game,
where `y = 250`, `velocity = 0` and `gravity = 0.5`. -/
theorem update_velocity_then_position_witness :
    (restart (constructor none)).gameState = GameState.playing ∧
    (update (restart (constructor none)) 0).bird.velocity = 1 / 2 ∧
    (update (restart (constructor none)) 0).bird.y = 501 / 2 :=
  ⟨rfl,
    ((update_velocity_then_position (restart (constructor none)) 0 rfl).2.2 rfl rfl rfl).1,
    ((update_velocity_then_position (restart (constructor none)) 0 rfl).2.2 rfl rfl rfl).2⟩

/-- C3. In the start or the playing state `handleInput` yields the playing
state with the velocity set to `bird.jump`, whatever the velocity was, and
changes nothing else: score, high score, `y`, rotation, pipes and frame counter
stay as they were.  In the constructed game the jump constant is `-5`. -/
theorem handleInput_start_or_playing (g : Game)
    (h : g.gameState = GameState.start ∨ g.gameState = GameState.playing) :
    handleInput g =
      { g with gameState := GameState.playing,
               bird := { g.bird with velocity := g.bird.jump } } ∧
    (handleInput g).gameState = GameState.playing ∧
    (handleInput g).bird.velocity = g.bird.jump ∧
    (handleInput g).score = g.score ∧
    (handleInput g).highScore = g.highScore ∧
    (handleInput g).bird.y = g.bird.y ∧
    (handleInput g).bird.rotation = g.bird.rotation ∧
    (handleInput g).pipes = g.pipes ∧
    (handleInput g).frameCount = g.frameCount ∧
    (Reachable g → (handleInput g).bird.velocity = -5) := by
  have hjump : Reachable g → g.bird.jump = -5 := fun hr =>
    (reachable_referenceConstants hr).2.2.2.2.2.2.2.2.2.2
  rcases h with h | h
  · have e : handleInput g = startGame g := by unfold handleInput; rw [h]
    rw [e]
    exact ⟨rfl, rfl, rfl, rfl, rfl, rfl, rfl, rfl, rfl, hjump⟩
  · have e : handleInput g =
        { g with bird := { g.bird with velocity := g.bird.jump } } := by
      unfold handleInput; rw [h]
    rw [e]
    refine ⟨?_, h, rfl, rfl, rfl, rfl, rfl, rfl, rfl, hjump⟩
    rw [← h]

/-- Witness for C3: the constructed game is in the start state, and an input
there starts play with velocity `-5`. -/
theorem handleInput_start_or_playing_witness :
    (constructor none).gameState = GameState.start ∧
    (handleInput (constructor none)).gameState = GameState.playing ∧
    (handleInput (constructor none)).bird.velocity = -5 :=
  ⟨rfl, (handleInput_start_or_playing (constructor none) (Or.inl rfl)).2.1,
    (handleInput_start_or_playing (constructor none) (Or.inl rfl)).2.2.2.2.2.2.2.2.2
      (Reachable.init none)⟩

/-- C4. `restart` yields the playing state with score `0`, no pipes, frame
counter `0` and the bird at `y = 250`, velocity `0`, rotation `0`, which are the
constructor's values; the high score is left as it was; `handleInput` in the
`gameOver` state is `restart`; and on a reachable state the result is the
constructed game except for `gameState`, the high score and the storage slot. -/
theorem restart_resets_session (g : Game) (stored : Option String) :
    (restart g).gameState = GameState.playing ∧
    (restart g).score = 0 ∧ (restart g).pipes = [] ∧ (restart g).frameCount = 0 ∧
    (restart g).bird.y = 250 ∧ (restart g).bird.velocity = 0 ∧
    (restart g).bird.rotation = 0 ∧
    (restart g).score = (constructor stored).score ∧
    (restart g).pipes = (constructor stored).pipes ∧
    (restart g).frameCount = (constructor stored).frameCount ∧
    (restart g).bird.y = (constructor stored).bird.y ∧
    (restart g).bird.velocity = (constructor stored).bird.velocity ∧
    (restart g).bird.rotation = (constructor stored).bird.rotation ∧
    (restart g).highScore = g.highScore ∧
    (g.gameState = GameState.gameOver → handleInput g = restart g) ∧
    (Reachable g → restart g =
      { constructor stored with
        gameState := GameState.playing
        highScore := g.highScore
        localStorage := g.localStorage }) := by
  refine ⟨rfl, rfl, rfl, rfl, rfl, rfl, rfl, rfl, rfl, rfl, rfl, rfl, rfl, rfl, ?_, ?_⟩
  · intro h
    unfold handleInput
    rw [h]
  · intro hr
    obtain ⟨a1, a2, a3, a4, a5, a6, a7, a8, a9, a10, a11⟩ := reachable_referenceConstants hr
    obtain ⟨cw, ch, gs, sc, hs, b, ps, pw, pg, psp, psr, fc, ls⟩ := g
    obtain ⟨bx, bY, bw, bh, bv, bg, bj, br⟩ := b
    simp only [] at a1 a2 a3 a4 a5 a6 a7 a8 a9 a10 a11
    subst a1 a2 a3 a4 a5 a6 a7 a8 a9 a10 a11
    rfl

/-- C5. Outside the playing state `update` returns the state unchanged, for one
call and for any number of calls in a row: nothing is spawned, moved or scored
and the state is not left without an input. -/
theorem update_noop_unless_playing (g : Game) (r : ℚ)
    (h : g.gameState ≠ GameState.playing) :
    update g r = g ∧ ∀ rs : List ℚ, rs.foldl update g = g := by
  have h1 : ∀ r1 : ℚ, update g r1 = g := by
    intro r1
    unfold update
    rw [if_pos h]
  refine ⟨h1 r, ?_⟩
  intro rs
  induction rs with
  | nil => rfl
  | cons r1 rest ih => rw [List.foldl_cons, h1 r1]; exact ih

/-- Witness for C5: the constructed game (start state) and an ended game are
both left alone by `update`. -/
theorem update_noop_unless_playing_witness :
    (constructor none).gameState ≠ GameState.playing ∧
    update (constructor none) 0 = constructor none ∧
    (gameOver (restart (constructor none))).gameState ≠ GameState.playing ∧
    update (gameOver (restart (constructor none))) 0 = gameOver (restart (constructor none)) :=
  ⟨by decide, (update_noop_unless_playing (constructor none) 0 (by decide)).1,
    by rw [gameOver_gameState]; decide,
    (update_noop_unless_playing (gameOver (restart (constructor none))) 0
      (by rw [gameOver_gameState]; decide)).1⟩

/-- C6. `checkCollisions` calls `gameOver` exactly when the bird rectangle
overlaps the top rectangle `(pipe.x, 0, pipeWidth, topHeight)` or the bottom
rectangle `(pipe.x, bottomY, pipeWidth, bottomHeight)` of some live pipe, and
otherwise returns the state unchanged; so from a state that is not yet ended the
result is ended if and only if such a pipe exists, and in general the result is
ended if and only if the state was ended already or such a pipe exists; and the
result is the same for every order of the pipe list. -/
theorem checkCollisions_iff_some_pipe_hit (g : Game) :
    ((∃ pipe ∈ g.pipes,
        isColliding g.bird.toRect ⟨pipe.x, 0, g.pipeWidth, pipe.topHeight⟩ = true ∨
        isColliding g.bird.toRect ⟨pipe.x, pipe.bottomY, g.pipeWidth, pipe.bottomHeight⟩
          = true) →
      checkCollisions g = gameOver g ∧
        (checkCollisions g).gameState = GameState.gameOver) ∧
    ((¬ ∃ pipe ∈ g.pipes,
        isColliding g.bird.toRect ⟨pipe.x, 0, g.pipeWidth, pipe.topHeight⟩ = true ∨
        isColliding g.bird.toRect ⟨pipe.x, pipe.bottomY, g.pipeWidth, pipe.bottomHeight⟩
          = true) →
      checkCollisions g = g) ∧
    (g.gameState ≠ GameState.gameOver →
      ((checkCollisions g).gameState = GameState.gameOver ↔
        ∃ pipe ∈ g.pipes,
          isColliding g.bird.toRect ⟨pipe.x, 0, g.pipeWidth, pipe.topHeight⟩ = true ∨
          isColliding g.bird.toRect ⟨pipe.x, pipe.bottomY, g.pipeWidth, pipe.bottomHeight⟩
            = true)) ∧
    ((checkCollisions g).gameState = GameState.gameOver ↔
      (g.gameState = GameState.gameOver ∨
        ∃ pipe ∈ g.pipes,
          isColliding g.bird.toRect ⟨pipe.x, 0, g.pipeWidth, pipe.topHeight⟩ = true ∨
          isColliding g.bird.toRect ⟨pipe.x, pipe.bottomY, g.pipeWidth, pipe.bottomHeight⟩
            = true)) ∧
    (∀ ps : List Pipe, ps.Perm g.pipes →
      checkCollisions { g with pipes := ps } = { checkCollisions g with pipes := ps }) := by
  have hany : g.pipes.any (hitsPipe g) = true ↔
      ∃ pipe ∈ g.pipes,
        isColliding g.bird.toRect ⟨pipe.x, 0, g.pipeWidth, pipe.topHeight⟩ = true ∨
        isColliding g.bird.toRect ⟨pipe.x, pipe.bottomY, g.pipeWidth, pipe.bottomHeight⟩
          = true := by
    simp [List.any_eq_true, hitsPipe, topRect, bottomRect]
  have hyes : g.pipes.any (hitsPipe g) = true → checkCollisions g = gameOver g := by
    intro h
    unfold checkCollisions
    rw [checkCollisionsLoop_eq, if_pos h]
  have hno : ¬ g.pipes.any (hitsPipe g) = true → checkCollisions g = g := by
    intro h
    unfold checkCollisions
    rw [checkCollisionsLoop_eq, if_neg h]
  refine ⟨?_, ?_, ?_, ?_, ?_⟩
  · intro h
    rw [hyes (hany.mpr h)]
    exact ⟨rfl, gameOver_gameState g⟩
  · intro h
    exact hno (fun ha => h (hany.mp ha))
  · intro hg
    constructor
    · intro hs
      by_contra hne
      rw [hno (fun ha => hne (hany.mp ha))] at hs
      exact hg hs
    · intro h
      rw [hyes (hany.mpr h)]
      exact gameOver_gameState g
  · constructor
    · intro hs
      by_cases hhit : g.pipes.any (hitsPipe g) = true
      · exact Or.inr (hany.mp hhit)
      · rw [hno hhit] at hs
        exact Or.inl hs
    · rintro (hg | h)
      · by_cases hhit : g.pipes.any (hitsPipe g) = true
        · rw [hyes hhit]
          exact gameOver_gameState g
        · rw [hno hhit]
          exact hg
      · rw [hyes (hany.mpr h)]
        exact gameOver_gameState g
  · intro ps hperm
    have hsame : ps.any (hitsPipe g) = g.pipes.any (hitsPipe g) := by
      rw [Bool.eq_iff_iff, List.any_eq_true, List.any_eq_true]
      constructor
      · rintro ⟨x, hx, hh⟩
        exact ⟨x, hperm.mem_iff.mp hx, hh⟩
      · rintro ⟨x, hx, hh⟩
        exact ⟨x, hperm.mem_iff.mpr hx, hh⟩
    unfold checkCollisions
    rw [checkCollisionsLoop_eq, checkCollisionsLoop_eq]
    have hfun : hitsPipe { g with pipes := ps } = hitsPipe g := rfl
    simp only [hfun, hsame]
    split
    · exact gameOver_withPipes g ps
    · rfl

/-- C7. In a playing state, with `y1 = y + (velocity + gravity)` the position
after the physics step: if `y1 + height > canvas.height - 50` or `y1 < 0` then
`update` ends the session; if neither holds and the bird overlaps no rectangle
of a pipe that is live after the pipes have moved, `update` leaves the state
playing. -/
theorem update_bounds_decide_gameOver (g : Game) (r : ℚ)
    (h : g.gameState = GameState.playing) :
    ((g.bird.y + (g.bird.velocity + g.bird.gravity) + g.bird.height > g.canvasHeight - 50 ∨
        g.bird.y + (g.bird.velocity + g.bird.gravity) < 0) →
      (update g r).gameState = GameState.gameOver) ∧
    (¬ (g.bird.y + (g.bird.velocity + g.bird.gravity) + g.bird.height > g.canvasHeight - 50 ∨
        g.bird.y + (g.bird.velocity + g.bird.gravity) < 0) →
      (∀ pipe ∈ (updateWorld g r).pipes,
        isColliding (updateWorld g r).bird.toRect
          ⟨pipe.x, 0, g.pipeWidth, pipe.topHeight⟩ = false ∧
        isColliding (updateWorld g r).bird.toRect
          ⟨pipe.x, pipe.bottomY, g.pipeWidth, pipe.bottomHeight⟩ = false) →
      (update g r).gameState = GameState.playing) := by
  have hoob : outOfBounds (checkCollisions (updateWorld g r)) = true ↔
      (g.bird.y + (g.bird.velocity + g.bird.gravity) + g.bird.height > g.canvasHeight - 50 ∨
        g.bird.y + (g.bird.velocity + g.bird.gravity) < 0) := by
    rw [outOfBounds_checkCollisions, updateWorld_frame g r]
    simp [outOfBounds, updatePhysics]
  rw [update_playing g r h]
  constructor
  · intro hb
    rw [if_pos (hoob.mpr hb)]
    exact gameOver_gameState _
  · intro hb hpipes
    rw [if_neg (fun hc => hb (hoob.mp hc))]
    have hw : (updateWorld g r).pipeWidth = g.pipeWidth :=
      (updateWorld_sameConstants g r).2.2.1
    have hnone : ¬ (updateWorld g r).pipes.any (hitsPipe (updateWorld g r)) = true := by
      rw [List.any_eq_true]
      rintro ⟨pipe, hmem, hhit⟩
      obtain ⟨h1, h2⟩ := hpipes pipe hmem
      simp only [hitsPipe, topRect, bottomRect, hw, h1, h2, Bool.or_self] at hhit
      exact Bool.false_ne_true hhit
    unfold checkCollisions
    rw [checkCollisionsLoop_eq, if_neg hnone, updateWorld_frame g r]
    exact h

/-- Witness for C7: a bird below the ground line ends the session, and the
freshly restarted game, with no pipes, stays in play. -/
theorem update_bounds_decide_gameOver_witness :
    (update lowBird 0).gameState = GameState.gameOver ∧
    (update (restart (constructor none)) 0).gameState = GameState.playing :=
  ⟨(update_bounds_decide_gameOver lowBird 0 rfl).1
      (Or.inl (by simp only [lowBird, restart, constructor]; norm_num)),
    (update_bounds_decide_gameOver (restart (constructor none)) 0 rfl).2
      (by simp only [restart, constructor]; norm_num)
      (by
        have hp : (updateWorld (restart (constructor none)) 0).pipes = [] := by rfl
        rw [hp]; simp)⟩

/-- C8. In every state reachable from the constructed game every live pipe
has `bottomY = topHeight + pipeGap` and
`topHeight + pipeGap + bottomHeight + 50 = canvas.height = 600`. -/
theorem reachable_pipes_keep_geometry (g : Game) (h : Reachable g) :
    (∀ pipe ∈ g.pipes,
      pipe.bottomY = pipe.topHeight + g.pipeGap ∧
      pipe.topHeight + g.pipeGap + pipe.bottomHeight + 50 = g.canvasHeight ∧
      pipe.topHeight + 150 + pipe.bottomHeight + 50 = 600) ∧
    g.canvasHeight = 600 ∧ g.pipeGap = 150 := by
  have hc := reachable_referenceConstants h
  have hh : g.canvasHeight = 600 := hc.2.1
  have hg : g.pipeGap = 150 := hc.2.2.2.1
  refine ⟨?_, hh, hg⟩
  intro pipe hmem
  obtain ⟨h1, h2⟩ := reachable_pipeGeometry h pipe hmem
  refine ⟨h1, h2, ?_⟩
  rw [← hh, ← hg]
  exact h2

/-- Witness for C8: after the first input and 180 frames of the simple player
the game has two live pipes, and both have the stated geometry. -/
theorem reachable_pipes_keep_geometry_witness :
    Reachable (flight 180) ∧ (flight 180).pipes.length = 2 ∧
    ∀ pipe ∈ (flight 180).pipes,
      pipe.bottomY = pipe.topHeight + (flight 180).pipeGap ∧
      pipe.topHeight + (flight 180).pipeGap + pipe.bottomHeight + 50
        = (flight 180).canvasHeight ∧
      pipe.topHeight + 150 + pipe.bottomHeight + 50 = 600 :=
  ⟨flight_reachable 180, by decide!,
    (reachable_pipes_keep_geometry (flight 180) (flight_reachable 180)).1⟩

/-- C9. With the reference constants (canvas `400 x 600`, gap `150`) and a
draw `0 <= r < 1`, `spawnPipe` changes only the pipe list, appending one pipe
at its end with `x = canvas.width = 400`, `passed = false` and
`topHeight = 50 + 300 r`, which lies in `[50, 350]`, where
`350 = canvas.height - pipeGap - 50 - 50`. -/
theorem spawnPipe_appends_one_pipe (g : Game) (r : ℚ) (h0 : 0 ≤ r) (h1 : r < 1)
    (hw : g.canvasWidth = 400) (hh : g.canvasHeight = 600) (hg : g.pipeGap = 150) :
    ∃ pipe : Pipe,
      spawnPipe g r = { g with pipes := g.pipes ++ [pipe] } ∧
      (spawnPipe g r).pipes = g.pipes ++ [pipe] ∧
      pipe.x = g.canvasWidth ∧ pipe.x = 400 ∧ pipe.passed = false ∧
      pipe.topHeight = 50 + 300 * r ∧
      50 ≤ pipe.topHeight ∧ pipe.topHeight ≤ 350 ∧
      (350 : ℚ) = g.canvasHeight - g.pipeGap - 50 - 50 := by
  refine ⟨newPipe g r, rfl, rfl, rfl, hw, rfl, ?_, ?_, ?_, ?_⟩
  · simp only [newPipe, hh, hg]; ring
  · simp only [newPipe, hh, hg]; linarith
  · simp only [newPipe, hh, hg]; linarith
  · rw [hh, hg]; norm_num

/-- Witness for C9: on the constructed game with the draw `1/2` the pipe list
becomes the single pipe at `x = 400` with top height `200`. -/
theorem spawnPipe_appends_one_pipe_witness :
    ∃ pipe : Pipe,
      (spawnPipe (constructor none) (1 / 2)).pipes = [pipe] ∧ pipe.x = 400 ∧
      pipe.passed = false ∧ pipe.topHeight = 50 + 300 * (1 / 2) := by
  obtain ⟨pipe, _, h2, _, h4, h5, h6, _⟩ :=
    spawnPipe_appends_one_pipe (constructor none) (1 / 2) (by norm_num) (by norm_num)
      rfl rfl rfl
  exact ⟨pipe, h2, h4, h5, h6⟩

/-- C10. `updatePipes` adds to the score the number of pipes that were not
passed and whose trailing edge after the move, `x - pipeSpeed + pipeWidth`, is
strictly left of `bird.x`; the pipes it keeps are the moved pipes, whose
`passed` flag is true exactly when it was true before or the pipe is one of
those just counted; a flag that was true stays true; pipes already passed add
nothing; and a pipe counted in one call is not counted in a later one. -/
theorem updatePipes_scores_each_pipe_once (g : Game) :
    (updatePipes g).score = g.score +
      (g.pipes.filter (fun p =>
        !p.passed && decide (p.x - g.pipeSpeed + g.pipeWidth < g.bird.x))).length ∧
    (updatePipes g).pipes = (g.pipes.map (movePipe g)).filter (staysLive g) ∧
    (∀ p : Pipe, (movePipe g p).passed = true ↔
      (p.passed = true ∨
        (p.passed = false ∧ p.x - g.pipeSpeed + g.pipeWidth < g.bird.x))) ∧
    (∀ p : Pipe, p.passed = true → (movePipe g p).passed = true) ∧
    ((∀ p ∈ g.pipes, p.passed = true) → (updatePipes g).score = g.score) ∧
    (∀ (p : Pipe) (g1 : Game),
      (p.passed = false ∧ p.x - g.pipeSpeed + g.pipeWidth < g.bird.x) →
        scoresNow g1 (movePipe g p) = false) := by
  rw [updatePipes_eq]
  refine ⟨rfl, rfl, ?_, ?_, ?_, ?_⟩
  · intro p
    cases hp : p.passed <;> simp [movePipe, scoresNow, hp]
  · intro p hp
    simp [movePipe, hp]
  · intro hall
    have hnil : g.pipes.filter (scoresNow g) = [] := by
      rw [List.filter_eq_nil_iff]
      intro p hp
      simp [scoresNow, hall p hp]
    simp only [hnil, List.length_nil, Nat.add_zero]
  · rintro p g1 ⟨hp, hlt⟩
    simp [movePipe, scoresNow, hp, hlt]

/-! ## Pipes over several frames -/

theorem updatePipes_pipes (g : Game) : (updatePipes g).pipes = stepPipes g g.pipes := by
  rw [updatePipes_eq]; rfl

theorem stepPipes_updatePipes (g : Game) : stepPipes (updatePipes g) = stepPipes g := by
  rw [updatePipes_eq]; rfl

theorem updatePipesTimes_pipes (n : ℕ) :
    ∀ g : Game, (updatePipesTimes n g).pipes = (stepPipes g)^[n] g.pipes := by
  induction n with
  | zero => intro g; rfl
  | succ n ih =>
    intro g
    unfold updatePipesTimes
    rw [ih (updatePipes g), stepPipes_updatePipes, updatePipes_pipes,
      Function.iterate_succ_apply]

theorem stepPipes_append (g : Game) (a b : List Pipe) :
    stepPipes g (a ++ b) = stepPipes g a ++ stepPipes g b := by
  simp [stepPipes, List.filter_append]

theorem stepPipes_iterate_append (g : Game) (n : ℕ) :
    ∀ a b : List Pipe,
      (stepPipes g)^[n] (a ++ b) = (stepPipes g)^[n] a ++ (stepPipes g)^[n] b := by
  induction n with
  | zero => intro a b; rfl
  | succ n ih =>
    intro a b
    rw [Function.iterate_succ_apply, Function.iterate_succ_apply,
      Function.iterate_succ_apply, stepPipes_append, ih]

theorem stepPipes_iterate_nil (g : Game) (n : ℕ) : (stepPipes g)^[n] [] = [] := by
  induction n with
  | zero => rfl
  | succ n ih => rw [Function.iterate_succ_apply]; exact ih

theorem stepPipes_singleton (g : Game) (q : Pipe) :
    stepPipes g [q] = if 0 ≤ q.x - g.pipeSpeed + g.pipeWidth then [movePipe g q] else [] := by
  by_cases h : 0 ≤ q.x - g.pipeSpeed + g.pipeWidth
  · simp [stepPipes, staysLive, movePipe, h]
  · simp [stepPipes, staysLive, movePipe, h]

/-- A single pipe under `n` frames of movement: it is still there, `n` speeds
further left, as long as `x - n * pipeSpeed + pipeWidth >= 0`, and a pipe that
was on screen is gone after. -/
theorem stepPipes_iterate_singleton (g : Game) (hs : 0 ≤ g.pipeSpeed) (n : ℕ) :
    ∀ q : Pipe,
      (0 ≤ q.x - n * g.pipeSpeed + g.pipeWidth →
        ∃ q1 : Pipe, (stepPipes g)^[n] [q] = [q1] ∧ q1.x = q.x - n * g.pipeSpeed ∧
          q1.topHeight = q.topHeight ∧ q1.bottomY = q.bottomY ∧
          q1.bottomHeight = q.bottomHeight) ∧
      (0 ≤ q.x + g.pipeWidth → q.x - n * g.pipeSpeed + g.pipeWidth < 0 →
        (stepPipes g)^[n] [q] = []) := by
  induction n with
  | zero =>
    intro q
    constructor
    · intro _
      exact ⟨q, rfl, by simp, rfl, rfl, rfl⟩
    · intro h0 h
      simp at h
      exact absurd h (not_lt.mpr h0)
  | succ n ih =>
    intro q
    have hmx : (movePipe g q).x = q.x - g.pipeSpeed := rfl
    have hcast : ((n + 1 : ℕ) : ℚ) = (n : ℚ) + 1 := by push_cast; ring
    have hn : (0 : ℚ) ≤ (n : ℚ) := Nat.cast_nonneg n
    rw [Function.iterate_succ_apply, stepPipes_singleton]
    constructor
    · intro h
      rw [hcast] at h
      have hlive : 0 ≤ q.x - g.pipeSpeed + g.pipeWidth := by nlinarith
      rw [if_pos hlive]
      obtain ⟨q1, e1, e2, e3, e4, e5⟩ := (ih (movePipe g q)).1 (by rw [hmx]; linarith)
      refine ⟨q1, e1, ?_, e3, e4, e5⟩
      rw [e2, hmx, hcast]; ring
    · intro _ h
      rw [hcast] at h
      by_cases hlive : 0 ≤ q.x - g.pipeSpeed + g.pipeWidth
      · rw [if_pos hlive]
        exact (ih (movePipe g q)).2 (by rw [hmx]; exact hlive) (by rw [hmx]; linarith)
      · rw [if_neg hlive]
        exact stepPipes_iterate_nil g n

/-- C11. The reverse-index loop with in-place splice of `updatePipes` computes
the specified `advance`: the resulting list is the original list with every
pipe moved left by `pipeSpeed` once (and its `passed` flag updated), filtered to
the pipes with `x + pipeWidth >= 0`, in the original order; nothing else but the
score changes; no kept pipe has `x + pipeWidth < 0`, and every pipe with
`x + pipeWidth >= 0` after the move is kept. -/
theorem updatePipes_refines_advanceSpec (g : Game) :
    (updatePipes g).pipes = advanceSpec g ∧
    updatePipes g = { g with pipes := advanceSpec g, score := (updatePipes g).score } ∧
    (∀ p ∈ (updatePipes g).pipes, ¬ (p.x + g.pipeWidth < 0)) ∧
    (∀ p ∈ g.pipes, p.x - g.pipeSpeed + g.pipeWidth ≥ 0 →
      movePipe g p ∈ (updatePipes g).pipes) ∧
    (∀ p ∈ (updatePipes g).pipes, ∃ q ∈ g.pipes,
      p.x = q.x - g.pipeSpeed ∧ p.topHeight = q.topHeight ∧ p.bottomY = q.bottomY ∧
        p.bottomHeight = q.bottomHeight) ∧
    List.Sublist (updatePipes g).pipes (g.pipes.map (movePipe g)) := by
  have hspec : advanceSpec g = (g.pipes.map (movePipe g)).filter (staysLive g) := rfl
  have hp : (updatePipes g).pipes = (g.pipes.map (movePipe g)).filter (staysLive g) := by
    rw [updatePipes_eq]
  refine ⟨by rw [hspec, hp], ?_, ?_, ?_, ?_, ?_⟩
  · rw [hspec]
    conv_lhs => rw [updatePipes_eq]
    rw [updatePipes_eq]
  · intro p hmem
    rw [hp, List.mem_filter] at hmem
    have hl : 0 ≤ p.x + g.pipeWidth := by simpa [staysLive] using hmem.2
    exact not_lt.mpr hl
  · intro p hmem hlive
    rw [hp, List.mem_filter]
    refine ⟨List.mem_map_of_mem _ hmem, ?_⟩
    simp only [staysLive, movePipe, decide_eq_true_eq]
    exact hlive
  · intro p hmem
    rw [hp, List.mem_filter, List.mem_map] at hmem
    obtain ⟨⟨q, hq, rfl⟩, _⟩ := hmem
    exact ⟨q, hq, rfl, rfl, rfl, rfl⟩
  · rw [hp]
    exact List.filter_sublist _

/-- C12, as stated, fails: a pipe spawned at `x = 400` and moved `3` per call
is at `x = 1` after 133 calls of `updatePipes` and at `x = -2` after 134 calls,
and in both cases it is still in the pipe list. -/
theorem spawned_pipe_still_live_after_width_over_speed :
    (updatePipesTimes 133 (spawnPipe (constructor none) (1 / 2))).pipes.map Pipe.x = [1] ∧
    (updatePipesTimes 134 (spawnPipe (constructor none) (1 / 2))).pipes.map Pipe.x = [-2] := by
  decide!

/-- C12, amended. A pipe spawned at `x = 400` with `pipeSpeed = 3` and
`pipeWidth = 60` is, after `n <= 153` calls of `updatePipes`, still the last
live pipe, at `x = 400 - 3 n` (which is `<= 0` from the 134th call on); after
`n >= 154` calls, the first with `x + pipeWidth < 0`, it has been removed. -/
theorem spawned_pipe_lifetime (g : Game) (r : ℚ) (n : ℕ)
    (hw : g.canvasWidth = 400) (hs : g.pipeSpeed = 3) (hpw : g.pipeWidth = 60) :
    (n ≤ 153 → ∃ q : Pipe,
      (updatePipesTimes n (spawnPipe g r)).pipes = (updatePipesTimes n g).pipes ++ [q] ∧
      q.x = 400 - 3 * (n : ℚ) ∧ (q.x ≤ 0 ↔ 134 ≤ n)) ∧
    (154 ≤ n →
      (updatePipesTimes n (spawnPipe g r)).pipes = (updatePipesTimes n g).pipes) := by
  have hsp : (0 : ℚ) ≤ g.pipeSpeed := by rw [hs]; norm_num
  have hx : (newPipe g r).x = 400 := hw
  have hpipes : (updatePipesTimes n (spawnPipe g r)).pipes =
      (updatePipesTimes n g).pipes ++ (stepPipes g)^[n] [newPipe g r] := by
    rw [updatePipesTimes_pipes, updatePipesTimes_pipes]
    exact stepPipes_iterate_append g n g.pipes [newPipe g r]
  have hsingle := stepPipes_iterate_singleton g hsp n (newPipe g r)
  rw [hx, hs, hpw] at hsingle
  constructor
  · intro hn
    have hq : (n : ℚ) ≤ 153 := by exact_mod_cast hn
    obtain ⟨q, e1, e2, _⟩ := hsingle.1 (by linarith)
    refine ⟨q, by rw [hpipes, e1], by rw [e2]; ring, ?_⟩
    rw [e2]
    constructor
    · intro hle
      have h3 : (400 : ℚ) ≤ (n : ℚ) * 3 := by linarith
      have h4 : (400 : ℚ) ≤ ((n * 3 : ℕ) : ℚ) := by push_cast; exact h3
      have h5 : 400 ≤ n * 3 := by exact_mod_cast h4
      omega
    · intro hge
      have h6 : (134 : ℚ) ≤ (n : ℚ) := by exact_mod_cast hge
      linarith
  · intro hn
    have hq : (154 : ℚ) ≤ (n : ℚ) := by exact_mod_cast hn
    rw [hpipes, hsingle.2 (by norm_num) (by linarith), List.append_nil]

/-- Witness for C12, amended: on the constructed game the spawned pipe is the
last live pipe at `x = -2` after 134 calls and is gone after 154 calls. -/
theorem spawned_pipe_lifetime_witness :
    (∃ q : Pipe,
      (updatePipesTimes 134 (spawnPipe (constructor none) (1 / 2))).pipes =
        (updatePipesTimes 134 (constructor none)).pipes ++ [q] ∧
      q.x = 400 - 3 * ((134 : ℕ) : ℚ) ∧ (q.x ≤ 0 ↔ 134 ≤ 134)) ∧
    (updatePipesTimes 154 (spawnPipe (constructor none) (1 / 2))).pipes =
      (updatePipesTimes 154 (constructor none)).pipes :=
  ⟨(spawned_pipe_lifetime (constructor none) (1 / 2) 134 rfl rfl rfl).1 (by norm_num),
    (spawned_pipe_lifetime (constructor none) (1 / 2) 154 rfl rfl rfl).2 (by norm_num)⟩

/-! ## What one `update` does to the score and the high score -/

theorem gameOver_idem (g : Game) : gameOver (gameOver g) = gameOver g := by
  by_cases h : gtNum (g.score : ℚ) (toNumber g.highScore) = true
  · have e : gameOver g = { g with
        gameState := GameState.gameOver
        highScore := JSValue.num (g.score : ℚ)
        localStorage := some (toString g.score) } := by
      unfold gameOver; rw [if_pos h]
    rw [e]
    unfold gameOver
    simp [toNumber, gtNum]
  · have e : gameOver g = { g with gameState := GameState.gameOver } := by
      unfold gameOver; rw [if_neg h]
    rw [e]
    unfold gameOver
    rw [if_neg h]

theorem update_eq (g : Game) (r : ℚ) (h : g.gameState = GameState.playing) :
    update g r =
      if (updateWorld g r).pipes.any (hitsPipe (updateWorld g r)) = true ∨
          outOfBounds (updateWorld g r) = true then
        gameOver (updateWorld g r)
      else updateWorld g r := by
  rw [update_playing g r h, outOfBounds_checkCollisions]
  unfold checkCollisions
  rw [checkCollisionsLoop_eq]
  by_cases h1 : (updateWorld g r).pipes.any (hitsPipe (updateWorld g r)) = true
  · rw [if_pos h1, if_pos (Or.inl h1), gameOver_idem]
    split <;> rfl
  · rw [if_neg h1]
    by_cases h2 : outOfBounds (updateWorld g r) = true
    · rw [if_pos h2, if_pos (Or.inr h2)]
    · rw [if_neg h2, if_neg (by rintro (h3 | h3); exact h1 h3; exact h2 h3)]

theorem updateWorld_score (g : Game) (r : ℚ) :
    (updateWorld g r).score = g.score +
      ((if spawnDue (updatePhysics g) then g.pipes ++ [newPipe g r] else g.pipes).filter
        (scoresNow g)).length := by
  unfold updateWorld
  simp only []
  rw [updatePipes_eq]
  split <;> rfl

theorem updateWorld_gameState (g : Game) (r : ℚ) :
    (updateWorld g r).gameState = g.gameState := by
  rw [updateWorld_frame g r]

theorem updateWorld_highScore (g : Game) (r : ℚ) :
    (updateWorld g r).highScore = g.highScore := by
  rw [updateWorld_frame g r]

theorem gameOver_score (g : Game) : (gameOver g).score = g.score := by
  rw [gameOver_frame g]

theorem update_score (g : Game) (r : ℚ) :
    (update g r).score =
      if g.gameState = GameState.playing then (updateWorld g r).score else g.score := by
  by_cases h : g.gameState = GameState.playing
  · rw [if_pos h, update_eq g r h]
    split
    · exact gameOver_score _
    · rfl
  · rw [if_neg h]
    unfold update
    rw [if_pos h]

theorem update_score_le (g : Game) (r : ℚ) : g.score ≤ (update g r).score := by
  rw [update_score]
  split
  · rw [updateWorld_score]; exact Nat.le_add_right _ _
  · exact Nat.le_refl _

theorem gameOver_highScore_num (g : Game) (hs : ℚ) (h : g.highScore = JSValue.num hs) :
    (gameOver g).highScore = JSValue.num (max hs (g.score : ℚ)) := by
  unfold gameOver
  rw [h]
  simp only [toNumber, gtNum]
  by_cases hlt : hs < (g.score : ℚ)
  · rw [if_pos (by simpa using hlt)]
    simp only []
    rw [max_eq_right (le_of_lt hlt)]
  · rw [if_neg (by simpa using hlt)]
    simp only []
    rw [max_eq_left (not_lt.mp hlt)]

theorem handleInput_score (g : Game) (h : g.gameState ≠ GameState.gameOver) :
    (handleInput g).score = g.score := by
  unfold handleInput
  split
  · rfl
  · rfl
  · rename_i hg; exact absurd hg h

theorem run_score_le (ops : List Op) :
    ∀ g : Game, SameSession g ops → g.score ≤ (run g ops).score := by
  induction ops with
  | nil => intro g _; exact Nat.le_refl _
  | cons op ops ih =>
    intro g hs
    obtain ⟨h1, h2, h3⟩ := hs
    have hstep : g.score ≤ (op.apply g).score := by
      cases op with
      | input => exact Nat.le_of_eq (handleInput_score g (h2 rfl)).symm
      | restart => exact absurd rfl h1
      | update r => exact update_score_le g r
    exact Nat.le_trans hstep (ih _ h3)

/-- C13. The score after `update` is at least the score before; `handleInput`
in the start or playing state and `gameOver` leave it as it is; `restart` sets
it to `0`; so over any sequence of calls within one session the score, a
natural number, never decreases. -/
theorem score_never_decreases_in_session (g : Game) (r : ℚ) :
    g.score ≤ (update g r).score ∧
    ((g.gameState = GameState.start ∨ g.gameState = GameState.playing) →
      (handleInput g).score = g.score) ∧
    (gameOver g).score = g.score ∧
    (restart g).score = 0 ∧
    (∀ ops : List Op, SameSession g ops → g.score ≤ (run g ops).score) := by
  refine ⟨update_score_le g r, ?_, gameOver_score g, rfl, fun ops h => run_score_le ops g h⟩
  intro h
  apply handleInput_score
  rcases h with h | h <;> rw [h] <;> decide

/-- C14. With a number `hs` as high score, `gameOver` sets the high score to
`max hs score` and leaves the score; `handleInput`, `restart`, and an `update`
that does not end the session leave the high score as it is; and after any
of these operations the high score is a number not below `hs`. -/
theorem highScore_max_on_gameOver (g : Game) (r : ℚ) (hs : ℤ)
    (h : g.highScore = JSValue.num (hs : ℚ)) :
    (gameOver g).highScore = JSValue.num (max (hs : ℚ) (g.score : ℚ)) ∧
    (gameOver g).score = g.score ∧
    (handleInput g).highScore = g.highScore ∧
    (restart g).highScore = g.highScore ∧
    ((update g r).gameState ≠ GameState.gameOver → (update g r).highScore = g.highScore) ∧
    (g.gameState ≠ GameState.playing → (update g r).highScore = g.highScore) ∧
    (∃ m : ℤ, (gameOver g).highScore = JSValue.num (m : ℚ) ∧ hs ≤ m) ∧
    (∃ m : ℤ, (update g r).highScore = JSValue.num (m : ℚ) ∧ hs ≤ m) := by
  have hmax : ∀ n : ℕ, max (hs : ℚ) (n : ℚ) = ((max hs (n : ℤ) : ℤ) : ℚ) := by
    intro n; push_cast; rfl
  have hidle : g.gameState ≠ GameState.playing → update g r = g := by
    intro hg; unfold update; rw [if_pos hg]
  have hin : (handleInput g).highScore = g.highScore := by
    unfold handleInput; split <;> rfl
  refine ⟨gameOver_highScore_num g _ h, gameOver_score g, hin, rfl, ?_, ?_, ?_, ?_⟩
  · intro hne
    by_cases hp : g.gameState = GameState.playing
    · rw [update_eq g r hp] at hne ⊢
      split
      · rename_i hc
        rw [if_pos hc] at hne
        exact absurd (gameOver_gameState _) hne
      · exact updateWorld_highScore g r
    · rw [hidle hp]
  · intro hp
    rw [hidle hp]
  · exact ⟨max hs (g.score : ℤ), by rw [gameOver_highScore_num g _ h, hmax], le_max_left _ _⟩
  · by_cases hp : g.gameState = GameState.playing
    · rw [update_eq g r hp]
      split
      · refine ⟨max hs ((updateWorld g r).score : ℤ), ?_, le_max_left _ _⟩
        rw [gameOver_highScore_num _ (hs : ℚ) (by rw [updateWorld_highScore, h]), hmax]
      · exact ⟨hs, by rw [updateWorld_highScore, h], le_refl _⟩
    · rw [hidle hp]
      exact ⟨hs, h, le_refl _⟩

/-- Witness for C14: a game with high score `0` that ends with score `3`
gets high score `3`. -/
theorem highScore_max_on_gameOver_witness :
    (gameOver { constructor none with score := 3 }).highScore
      = JSValue.num (max ((0 : ℤ) : ℚ) ((3 : ℕ) : ℚ)) ∧
    (gameOver { constructor none with score := 3 }).score = 3 :=
  ⟨(highScore_max_on_gameOver { constructor none with score := 3 } 0 0
      (by simp [constructor])).1,
    (highScore_max_on_gameOver { constructor none with score := 3 } 0 0
      (by simp [constructor])).2.1⟩

theorem update_rotation (g : Game) (r : ℚ) (h : g.gameState = GameState.playing) :
    (update g r).bird.rotation =
      min (max ((g.bird.velocity + g.bird.gravity) * 3) (-30)) 90 := by
  rw [update_bird g r h]
  rfl

theorem reachable_rotation {g : Game} (h : Reachable g) :
    -30 ≤ g.bird.rotation ∧ g.bird.rotation ≤ 90 := by
  induction h with
  | init stored => constructor <;> simp [constructor]
  | @byInput g _ ih =>
    have e : (handleInput g).bird.rotation = g.bird.rotation ∨
        (handleInput g).bird.rotation = 0 := by
      unfold handleInput
      split
      · exact Or.inl rfl
      · exact Or.inl rfl
      · exact Or.inr rfl
    rcases e with e | e
    · rw [e]; exact ih
    · rw [e]; constructor <;> norm_num
  | byRestart _ _ => constructor <;> simp [restart]
  | @byUpdate g r _ _ _ ih =>
    by_cases hp : g.gameState = GameState.playing
    · rw [update_rotation g r hp]
      constructor
      · exact le_min (le_max_right _ _) (by norm_num)
      · exact min_le_right _ _
    · have e : update g r = g := by unfold update; rw [if_pos hp]
      rw [e]; exact ih

/-- C16. In a playing state the rotation after `update` is
`min (max (3 * v1) (-30)) 90`, with `v1 = velocity + gravity` the velocity
after the gravity step, which is also the velocity of the resulting state; and
in every reachable state the rotation lies in `[-30, 90]`. -/
theorem rotation_is_clamped_velocity (g : Game) (r : ℚ) :
    (g.gameState = GameState.playing →
      (update g r).bird.rotation =
        min (max (3 * (g.bird.velocity + g.bird.gravity)) (-30)) 90 ∧
      (update g r).bird.rotation =
        min (max (3 * (update g r).bird.velocity) (-30)) 90) ∧
    (Reachable g → -30 ≤ g.bird.rotation ∧ g.bird.rotation ≤ 90) := by
  constructor
  · intro h
    have hv : (update g r).bird.velocity = g.bird.velocity + g.bird.gravity := by
      rw [update_bird g r h]; rfl
    rw [hv, update_rotation g r h, mul_comm]
    exact ⟨rfl, rfl⟩
  · exact reachable_rotation

/-- Witness for C16: the frame after a restart has rotation `3/2`, and the
reachable state `flight 180` has its rotation within `[-30, 90]`. -/
theorem rotation_is_clamped_velocity_witness :
    (update (restart (constructor none)) 0).bird.rotation
      = min (max (3 * ((0 : ℚ) + 1 / 2)) (-30)) 90 ∧
    (-30 ≤ (flight 180).bird.rotation ∧ (flight 180).bird.rotation ≤ 90) :=
  ⟨((rotation_is_clamped_velocity (restart (constructor none)) 0).1 rfl).1,
    (rotation_is_clamped_velocity (flight 180) 0).2 (flight_reachable 180)⟩

/-- C17, as stated, fails: on a canvas of height `200` with the gap `150`,
`spawnPipe` with the draw `0` appends a pipe whose bottom height is `-50`, and
with the draw `9/10` a pipe whose top height is `-40`. -/
theorem spawnPipe_negative_height_on_small_canvas :
    (0 : ℚ) ≤ 0 ∧ (0 : ℚ) < 1 ∧ (0 : ℚ) ≤ 9 / 10 ∧ (9 / 10 : ℚ) < 1 ∧
    (spawnPipe smallCanvas 0).pipes.map Pipe.bottomHeight = [-50] ∧
    (spawnPipe smallCanvas (9 / 10)).pipes.map Pipe.topHeight = [-40] := by
  refine ⟨by norm_num, by norm_num, by norm_num, by norm_num, ?_, ?_⟩
  · simp [spawnPipe, smallCanvas, constructor]; norm_num
  · simp [spawnPipe, smallCanvas, constructor]; norm_num

/-- C17, amended. When `canvas.height >= pipeGap + 100` (the reference build
has `600 >= 250`) and `0 <= r < 1`, the pipe `spawnPipe` appends has
`topHeight >= 0` and `bottomHeight >= 0`. -/
theorem spawnPipe_heights_nonneg (g : Game) (r : ℚ) (h0 : 0 ≤ r) (h1 : r < 1)
    (hH : g.pipeGap + 100 ≤ g.canvasHeight) :
    ∃ pipe : Pipe,
      (spawnPipe g r).pipes = g.pipes ++ [pipe] ∧
      0 ≤ pipe.topHeight ∧ 0 ≤ pipe.bottomHeight := by
  refine ⟨newPipe g r, rfl, ?_, ?_⟩
  · simp only [newPipe]
    nlinarith
  · simp only [newPipe]
    nlinarith

/-- Witness for C17, amended: the constructed game (`600 >= 150 + 100`) with
the draw `1/2`. -/
theorem spawnPipe_heights_nonneg_witness :
    ∃ pipe : Pipe,
      (spawnPipe (constructor none) (1 / 2)).pipes = (constructor none).pipes ++ [pipe] ∧
      0 ≤ pipe.topHeight ∧ 0 ≤ pipe.bottomHeight :=
  spawnPipe_heights_nonneg (constructor none) (1 / 2) (by norm_num) (by norm_num)
    (by simp [constructor]; norm_num)

/-- C18: what the constructor does with the storage slot.  An absent key and
the empty string give the number `0`; every other string is kept as it is: the
non-numeric `"abc"` is not replaced by `0`, it reads as `NaN`, and `gameOver`
then never replaces it whatever the score; the integer string `"12"` is kept as
a string that reads as `12`. -/
theorem constructor_keeps_stored_string :
    (constructor none).highScore = JSValue.num 0 ∧
    (constructor (some "")).highScore = JSValue.num 0 ∧
    (∀ s : String, s ≠ "" → (constructor (some s)).highScore = JSValue.str s) ∧
    (constructor (some "abc")).highScore = JSValue.str "abc" ∧
    (constructor (some "abc")).highScore ≠ JSValue.num 0 ∧
    toNumber (constructor (some "abc")).highScore = JSNum.nan ∧
    (∀ n : ℕ, (gameOver { constructor (some "abc") with score := n }).highScore
      = JSValue.str "abc") ∧
    (constructor (some "12")).highScore = JSValue.str "12" ∧
    toNumber (constructor (some "12")).highScore = JSNum.fin 12 := by
  refine ⟨rfl, by decide, ?_, by decide, by decide, by decide, ?_, by decide, by decide!⟩
  · intro s hne
    have hs : s.isEmpty = false := by
      rw [Bool.eq_false_iff]
      intro hc
      exact hne ((String.isEmpty_iff s).mp hc)
    simp [constructor, hs]
  · intro n
    have hnan : toNumber (JSValue.str "abc") = JSNum.nan := by decide
    have hhs : ({ constructor (some "abc") with score := n } : Game).highScore
        = JSValue.str "abc" :=
      (by decide : (constructor (some "abc")).highScore = JSValue.str "abc")
    unfold gameOver
    rw [hhs, hnan]
    simp only [gtNum]
    rw [if_neg (by simp)]

/-- C19. `gameOver` applied twice is `gameOver` applied once, on every state;
so in a playing state a frame whose collision check and bounds check both call
`gameOver` ends in the state a single call gives, `gameOver` of the state after
`updatePipes`, with the same high score. -/
theorem gameOver_idempotent (g : Game) (r : ℚ) :
    gameOver (gameOver g) = gameOver g ∧
    (gameOver (gameOver g)).highScore = (gameOver g).highScore ∧
    (g.gameState = GameState.playing →
      ((∃ pipe ∈ (updateWorld g r).pipes, hitsPipe (updateWorld g r) pipe = true) ∨
        outOfBounds (updateWorld g r) = true) →
      update g r = gameOver (updateWorld g r)) ∧
    (g.gameState = GameState.playing →
      (∃ pipe ∈ (updateWorld g r).pipes, hitsPipe (updateWorld g r) pipe = true) →
      outOfBounds (updateWorld g r) = true →
      checkCollisions (updateWorld g r) = gameOver (updateWorld g r) ∧
      update g r = gameOver (gameOver (updateWorld g r))) := by
  have hup : g.gameState = GameState.playing →
      ((∃ pipe ∈ (updateWorld g r).pipes, hitsPipe (updateWorld g r) pipe = true) ∨
        outOfBounds (updateWorld g r) = true) →
      update g r = gameOver (updateWorld g r) := by
    intro hp hc
    rw [update_eq g r hp, if_pos]
    rcases hc with hc | hc
    · exact Or.inl (List.any_eq_true.mpr hc)
    · exact Or.inr hc
  refine ⟨gameOver_idem g, by rw [gameOver_idem], hup, ?_⟩
  intro hp hhit hoob
  constructor
  · unfold checkCollisions
    rw [checkCollisionsLoop_eq, if_pos (List.any_eq_true.mpr hhit)]
  · rw [gameOver_idem]
    exact hup hp (Or.inr hoob)

/-! ## The train of pipes -/

theorem chain_head_closed {R : Pipe → Pipe → Prop} {P : Pipe → Prop}
    (hR : ∀ a b, R a b → P a → P b) :
    ∀ (rest : List Pipe) (a : Pipe), List.Chain' R (a :: rest) → P a → ∀ b ∈ rest, P b := by
  intro rest
  induction rest with
  | nil => intro a _ _ b hb; exact absurd hb (List.not_mem_nil b)
  | cons c rest ih =>
    intro a hch ha b hb
    rw [List.chain'_cons] at hch
    have hc : P c := hR a c hch.1 ha
    rcases List.mem_cons.mp hb with hb | hb
    · rw [hb]; exact hc
    · exact ih c hch.2 hc b hb

theorem chain_filter_closed {R : Pipe → Pipe → Prop} (f : Pipe → Bool)
    (hR : ∀ a b, R a b → f a = true → f b = true) :
    ∀ l : List Pipe, List.Chain' R l → List.Chain' R (l.filter f) := by
  intro l
  induction l with
  | nil => intro h; exact h
  | cons a rest ih =>
    intro hch
    by_cases ha : f a = true
    · have hall : ∀ b ∈ a :: rest, f b = true := by
        intro b hb
        rcases List.mem_cons.mp hb with hb | hb
        · rw [hb]; exact ha
        · exact chain_head_closed (P := fun q => f q = true) hR rest a hch ha b hb
      rw [List.filter_eq_self.mpr hall]
      exact hch
    · rw [List.filter_cons_of_neg ha]
      exact ih (List.chain'_cons'.mp hch).2

theorem pipeTrainAt_spawn (ps : List Pipe) (f : ℕ) (new : Pipe) (hx : new.x = 400)
    (h : PipeTrainAt 397 ps f) :
    PipeTrainAt 400 (if (f + 1) % 90 = 0 then ps ++ [new] else ps) (f + 1) := by
  obtain ⟨hch, hpass, hlast⟩ := h
  by_cases hdue : (f + 1) % 90 = 0
  · rw [if_pos hdue]
    refine ⟨?_, ?_, Or.inr ⟨ps, new, rfl, ?_⟩⟩
    · rcases hlast with ⟨hnil, _⟩ | ⟨front, p, hps, hpx⟩
      · rw [hnil]; exact List.chain'_singleton new
      · refine List.Chain'.append hch (List.chain'_singleton new) ?_
        intro a ha b hb
        have hf : f % 90 = 89 := by omega
        rw [hps] at ha
        have ha1 : p = a := by simpa [Option.or] using ha
        have hb1 : new = b := by simpa using hb
        rw [← ha1, ← hb1, hx, hpx, hf]
        norm_num
    · intro p hp hlt
      rcases List.mem_append.mp hp with hp | hp
      · exact hpass p hp hlt
      · rw [List.mem_singleton] at hp
        rw [hp, hx] at hlt
        norm_num at hlt
    · rw [hx, hdue]; norm_num
  · rw [if_neg hdue]
    refine ⟨hch, hpass, ?_⟩
    rcases hlast with ⟨hnil, hlt⟩ | ⟨front, p, hps, hpx⟩
    · exact Or.inl ⟨hnil, by omega⟩
    · refine Or.inr ⟨front, p, hps, ?_⟩
      have hf : (f + 1) % 90 = f % 90 + 1 := by omega
      rw [hpx, hf]
      push_cast
      ring

theorem pipeTrainAt_move (g : Game) (hs : g.pipeSpeed = 3) (hw : g.pipeWidth = 60)
    (hb : g.bird.x = 80) (ps : List Pipe) (f : ℕ) (h : PipeTrainAt 400 ps f) :
    PipeTrainAt 397 (stepPipes g ps) f := by
  obtain ⟨hch, hpass, hlast⟩ := h
  have hmx : ∀ q : Pipe, (movePipe g q).x = q.x - 3 := by
    intro q; simp [movePipe, hs]
  refine ⟨?_, ?_, ?_⟩
  · unfold stepPipes
    apply chain_filter_closed
    · intro a b hab ha
      simp only [staysLive, hw, decide_eq_true_eq] at ha ⊢
      rw [hab]; linarith
    · rw [List.chain'_map]
      refine List.Chain'.imp ?_ hch
      intro a b hab
      rw [hmx, hmx, hab]; ring
  · intro p hp hlt
    unfold stepPipes at hp
    rw [List.mem_filter, List.mem_map] at hp
    obtain ⟨⟨q, _, rfl⟩, _⟩ := hp
    rw [hmx] at hlt
    have hlt1 : q.x - 3 + 60 < 80 := hlt
    cases hq : q.passed <;> simp [movePipe, scoresNow, hq, hs, hw, hb, hlt1]
  · rcases hlast with ⟨hnil, hlt⟩ | ⟨front, p, hps, hpx⟩
    · refine Or.inl ⟨?_, hlt⟩
      rw [hnil]; rfl
    · refine Or.inr ⟨stepPipes g front, movePipe g p, ?_, ?_⟩
      · have hmod : ((f % 90 : ℕ) : ℚ) ≤ 89 := by
          have : f % 90 ≤ 89 := by omega
          exact_mod_cast this
        rw [hps, stepPipes_append, stepPipes_singleton, if_pos]
        rw [hs, hw, hpx]
        linarith
      · rw [hmx, hpx]; ring

theorem spawnDue_updatePhysics (g : Game) (hr : g.pipeSpawnRate = 90) :
    spawnDue (updatePhysics g) = true ↔ (g.frameCount + 1) % 90 = 0 := by
  simp [spawnDue, updatePhysics, hr]

theorem updateWorld_pipeTrain (g : Game) (r : ℚ) (hc : ReferenceConstants g)
    (h : PipeTrain g.pipes g.frameCount) :
    PipeTrainAt 400
      (if spawnDue (updatePhysics g) then g.pipes ++ [newPipe g r] else g.pipes)
      (g.frameCount + 1) ∧
    PipeTrain (updateWorld g r).pipes (updateWorld g r).frameCount := by
  obtain ⟨c1, _, c3, _, c5, c6, c7, _⟩ := hc
  have hpre : PipeTrainAt 400
      (if spawnDue (updatePhysics g) then g.pipes ++ [newPipe g r] else g.pipes)
      (g.frameCount + 1) := by
    have h1 := pipeTrainAt_spawn g.pipes g.frameCount (newPipe g r) c1 h
    by_cases hdue : (g.frameCount + 1) % 90 = 0
    · rw [if_pos hdue] at h1
      rw [if_pos ((spawnDue_updatePhysics g c6).mpr hdue)]
      exact h1
    · rw [if_neg hdue] at h1
      rw [if_neg (fun hsd => hdue ((spawnDue_updatePhysics g c6).mp hsd))]
      exact h1
  refine ⟨hpre, ?_⟩
  have hf : (updateWorld g r).frameCount = g.frameCount + 1 := by
    rw [updateWorld_frame g r]
  rw [hf, updateWorld_pipes]
  exact pipeTrainAt_move g c5 c3 c7 _ _ hpre

theorem update_pipeTrain (g : Game) (r : ℚ) (hc : ReferenceConstants g)
    (h : PipeTrain g.pipes g.frameCount) :
    PipeTrain (update g r).pipes (update g r).frameCount := by
  by_cases hp : g.gameState = GameState.playing
  · have hw := (updateWorld_pipeTrain g r hc h).2
    rw [update_eq g r hp]
    split
    · rw [gameOver_frame]; exact hw
    · exact hw
  · have e : update g r = g := by unfold update; rw [if_pos hp]
    rw [e]; exact h

theorem pipeTrain_empty : PipeTrain [] 0 :=
  ⟨List.chain'_nil, fun p hp => absurd hp (List.not_mem_nil p),
    Or.inl ⟨rfl, by norm_num⟩⟩

theorem reachable_pipeTrain {g : Game} (h : Reachable g) :
    PipeTrain g.pipes g.frameCount := by
  induction h with
  | init stored => exact pipeTrain_empty
  | @byInput g _ ih =>
    unfold handleInput
    split
    · exact ih
    · exact ih
    · exact pipeTrain_empty
  | byRestart _ _ => exact pipeTrain_empty
  | @byUpdate g r hr _ _ ih => exact update_pipeTrain g r (reachable_referenceConstants hr) ih

theorem scored_at_most_one (g : Game) (hs : g.pipeSpeed = 3) (hw : g.pipeWidth = 60)
    (hb : g.bird.x = 80) (ps : List Pipe)
    (hch : List.Chain' (fun a b : Pipe => b.x = a.x + 270) ps)
    (hpass : ∀ p ∈ ps, p.x + 60 < 80 → p.passed = true) :
    (ps.filter (scoresNow g)).length ≤ 1 := by
  have hwin : ∀ q ∈ ps.filter (scoresNow g), 20 ≤ q.x ∧ q.x < 23 := by
    intro q hq
    rw [List.mem_filter] at hq
    obtain ⟨hmem, hsc⟩ := hq
    simp only [scoresNow, hs, hw, hb, Bool.and_eq_true, Bool.not_eq_true',
      decide_eq_true_eq] at hsc
    constructor
    · by_contra hlt
      have := hpass q hmem (by linarith [not_le.mp hlt])
      rw [hsc.1] at this
      exact Bool.false_ne_true this
    · linarith [hsc.2]
  haveI : IsTrans Pipe (fun a b : Pipe => a.x + 270 ≤ b.x) :=
    ⟨fun a b c h1 h2 => by linarith⟩
  have hpw : List.Pairwise (fun a b : Pipe => a.x + 270 ≤ b.x) (ps.filter (scoresNow g)) := by
    apply List.Pairwise.filter
    rw [← List.chain'_iff_pairwise]
    exact List.Chain'.imp (fun a b hab => le_of_eq hab.symm) hch
  match hl : ps.filter (scoresNow g), hwin, hpw with
  | [], _, _ => simp
  | [_], _, _ => simp
  | a :: b :: rest, hwin1, hpw1 =>
    exfalso
    have hab : a.x + 270 ≤ b.x := (List.pairwise_cons.mp hpw1).1 b (List.mem_cons_self b rest)
    have ha := hwin1 a (List.mem_cons_self a _)
    have hb1 := hwin1 b (List.mem_cons_of_mem a (List.mem_cons_self b rest))
    linarith [ha.1, hb1.2]

/-- C20. In every reachable state the live pipes are in strictly increasing
order of `x`, consecutive pipes are exactly `pipeSpawnRate * pipeSpeed = 270`
apart, and every pipe with `x + pipeWidth < bird.x` is marked passed; so one
`update`, with any draw, raises the score by at most `1`. -/
theorem reachable_pipes_in_train (g : Game) (r : ℚ) (h : Reachable g) :
    List.Pairwise (fun a b : Pipe => a.x < b.x) g.pipes ∧
    List.Chain' (fun a b : Pipe => b.x - a.x = (g.pipeSpawnRate : ℚ) * g.pipeSpeed) g.pipes ∧
    (g.pipeSpawnRate : ℚ) * g.pipeSpeed = 270 ∧
    (∀ p ∈ g.pipes, p.x + g.pipeWidth < g.bird.x → p.passed = true) ∧
    (update g r).score ≤ g.score + 1 := by
  have hc := reachable_referenceConstants h
  have ht := reachable_pipeTrain h
  obtain ⟨_, _, c3, _, c5, c6, c7, _⟩ := hc
  obtain ⟨hch, hpass, _⟩ := ht
  have h270 : (g.pipeSpawnRate : ℚ) * g.pipeSpeed = 270 := by
    rw [c5, c6]; norm_num
  refine ⟨?_, ?_, h270, ?_, ?_⟩
  · haveI : IsTrans Pipe (fun a b : Pipe => a.x < b.x) :=
      ⟨fun a b c h1 h2 => lt_trans h1 h2⟩
    rw [← List.chain'_iff_pairwise]
    exact List.Chain'.imp (fun a b hab => by rw [hab]; linarith) hch
  · rw [h270]
    exact List.Chain'.imp (fun a b hab => by rw [hab]; ring) hch
  · intro p hp hlt
    rw [c3, c7] at hlt
    exact hpass p hp hlt
  · rw [update_score]
    split
    · obtain ⟨hch1, hpass1, _⟩ :=
        (updateWorld_pipeTrain g r (reachable_referenceConstants h) (reachable_pipeTrain h)).1
      rw [updateWorld_score]
      exact Nat.add_le_add_left (scored_at_most_one g c5 c3 c7 _ hch1 hpass1) _
    · exact Nat.le_succ _

theorem flight_215_facts :
    (flight 215).pipes.map Pipe.x = [22, 292] ∧ (flight 215).score = 0 ∧
    (update (flight 215) (1 / 2)).score = 1 := by
  decide!

/-- Witness for C20: after 215 frames of the simple player two pipes are live,
at `x = 22` and `x = 292`, the score is `0`, and the next frame scores the
first pipe, once. -/
theorem reachable_pipes_in_train_witness :
    Reachable (flight 215) ∧ (flight 215).pipes.map Pipe.x = [22, 292] ∧
    (flight 215).score = 0 ∧ (update (flight 215) (1 / 2)).score = 1 ∧
    List.Pairwise (fun a b : Pipe => a.x < b.x) (flight 215).pipes ∧
    (update (flight 215) (1 / 2)).score ≤ (flight 215).score + 1 :=
  ⟨flight_reachable 215, flight_215_facts.1, flight_215_facts.2.1, flight_215_facts.2.2,
    (reachable_pipes_in_train (flight 215) (1 / 2) (flight_reachable 215)).1,
    (reachable_pipes_in_train (flight 215) (1 / 2) (flight_reachable 215)).2.2.2.2⟩

/-! ## The high score along a sequence of calls -/

theorem gameOver_toNumber (g : Game) (hv : ℚ) (h : toNumber g.highScore = JSNum.fin hv) :
    toNumber (gameOver g).highScore = JSNum.fin (max hv (g.score : ℚ)) := by
  unfold gameOver
  rw [h]
  simp only [gtNum]
  by_cases hlt : hv < (g.score : ℚ)
  · rw [if_pos (by simpa using hlt)]
    simp only [toNumber]
    rw [max_eq_right (le_of_lt hlt)]
  · rw [if_neg (by simpa using hlt)]
    simp only []
    rw [h, max_eq_left (not_lt.mp hlt)]

theorem handleInput_cases (g : Game) :
    (g.gameState ≠ GameState.gameOver ∧
      (handleInput g).gameState = GameState.playing ∧
      (handleInput g).score = g.score ∧ (handleInput g).highScore = g.highScore) ∨
    (g.gameState = GameState.gameOver ∧ handleInput g = restart g) := by
  unfold handleInput
  split
  · rename_i h; exact Or.inl ⟨by rw [h]; decide, rfl, rfl, rfl⟩
  · rename_i h; exact Or.inl ⟨by rw [h]; decide, h, rfl, rfl⟩
  · rename_i h; exact Or.inr ⟨h, rfl⟩

theorem tracksMax_restart (g : Game) (M : ℚ) (h : TracksMax g M)
    (hidle : g.gameState ≠ GameState.playing) :
    TracksMax (restart g) (max M ((restart g).score : ℚ)) := by
  obtain ⟨hv, h1, h2, h3⟩ := h
  have hle := h3 hidle
  refine ⟨hv, h1, ?_, fun hne => absurd rfl hne⟩
  rw [h2, max_eq_left hle]

theorem tracksMax_step (g : Game) (M : ℚ) (op : Op) (h : TracksMax g M)
    (hop : op = Op.restart → g.gameState ≠ GameState.playing) :
    TracksMax (op.apply g) (max M ((op.apply g).score : ℚ)) := by
  cases op with
  | restart => exact tracksMax_restart g M h (hop rfl)
  | input =>
    rcases handleInput_cases g with ⟨_, hplay, hsc, hhs⟩ | ⟨hover, heq⟩
    · obtain ⟨hv, h1, h2, _⟩ := h
      refine ⟨hv, ?_, ?_, fun hne => absurd hplay hne⟩
      · show toNumber (handleInput g).highScore = JSNum.fin hv
        rw [hhs]; exact h1
      · show max M ((handleInput g).score : ℚ) = max hv ((handleInput g).score : ℚ)
        rw [hsc, h2, max_assoc, max_self]
    · show TracksMax (handleInput g) (max M ((handleInput g).score : ℚ))
      rw [heq]
      exact tracksMax_restart g M h (by rw [hover]; decide)
  | update r =>
    show TracksMax (update g r) (max M ((update g r).score : ℚ))
    by_cases hp : g.gameState = GameState.playing
    · obtain ⟨hv, h1, h2, _⟩ := h
      have hsle : (g.score : ℚ) ≤ ((updateWorld g r).score : ℚ) := by
        have := update_score_le g r
        rw [update_score, if_pos hp] at this
        exact_mod_cast this
      have hM : max M ((updateWorld g r).score : ℚ) = max hv ((updateWorld g r).score : ℚ) := by
        rw [h2, max_assoc, max_eq_right hsle]
      rw [update_eq g r hp]
      split
      · refine ⟨max hv ((updateWorld g r).score : ℚ), ?_, ?_, ?_⟩
        · exact gameOver_toNumber _ hv (by rw [updateWorld_highScore]; exact h1)
        · rw [gameOver_score, hM, max_assoc, max_self]
        · intro _
          rw [gameOver_score]
          exact le_max_right _ _
      · refine ⟨hv, by rw [updateWorld_highScore]; exact h1, hM, ?_⟩
        intro hne
        rw [updateWorld_gameState] at hne
        exact absurd hp hne
    · have e : update g r = g := by unfold update; rw [if_pos hp]
      rw [e]
      obtain ⟨hv, h1, h2, h3⟩ := h
      refine ⟨hv, h1, ?_, h3⟩
      rw [h2, max_assoc, max_self]

theorem run_append_singleton (ops : List Op) :
    ∀ (g : Game) (op : Op), run g (ops ++ [op]) = op.apply (run g ops) := by
  induction ops with
  | nil => intro g op; rfl
  | cons o ops ih => intro g op; exact ih (o.apply g) op

theorem statesAlong_append_singleton (ops : List Op) :
    ∀ (g : Game) (op : Op),
      statesAlong g (ops ++ [op]) = statesAlong g ops ++ [run g (ops ++ [op])] := by
  induction ops with
  | nil => intro g op; rfl
  | cons o ops ih =>
    intro g op
    show g :: statesAlong (o.apply g) (ops ++ [op]) = _
    rw [ih (o.apply g) op]
    rfl

theorem run_mem_statesAlong (ops : List Op) :
    ∀ g : Game, run g ops ∈ statesAlong g ops := by
  induction ops with
  | nil => intro g; exact List.mem_singleton.mpr rfl
  | cons o ops ih => intro g; exact List.mem_cons_of_mem g (ih (o.apply g))

theorem maxScore_append_singleton (m : ℚ) (l : List Game) (s : Game) :
    maxScore m (l ++ [s]) = max (maxScore m l) (s.score : ℚ) := by
  simp [maxScore, List.foldl_append]

theorem le_maxScore (l : List Game) : ∀ m : ℚ, m ≤ maxScore m l := by
  induction l with
  | nil => intro m; exact le_refl m
  | cons s l ih => intro m; exact le_trans (le_max_left _ _) (ih (max m (s.score : ℚ)))

theorem score_le_maxScore (l : List Game) :
    ∀ (m : ℚ) (s : Game), s ∈ l → (s.score : ℚ) ≤ maxScore m l := by
  induction l with
  | nil => intro m s hs; exact absurd hs (List.not_mem_nil s)
  | cons t l ih =>
    intro m s hs
    rcases List.mem_cons.mp hs with hs | hs
    · rw [hs]
      exact le_trans (le_max_right m _) (le_maxScore l (max m (t.score : ℚ)))
    · exact ih (max m (t.score : ℚ)) s hs

theorem tracksMax_run (ops : List Op) :
    ∀ (g : Game) (m : ℚ), TracksMax g (max m (g.score : ℚ)) →
      restartOnlyIdle g ops = true →
      TracksMax (run g ops) (maxScore m (statesAlong g ops)) := by
  induction ops with
  | nil => intro g m h _; exact h
  | cons op ops ih =>
    intro g m h hidle
    simp only [restartOnlyIdle, Bool.and_eq_true, Bool.or_eq_true, bne_iff_ne] at hidle
    refine ih (op.apply g) (max m (g.score : ℚ)) (tracksMax_step g _ op h ?_) hidle.2
    intro hop
    rcases hidle.1 with h1 | h1
    · exact absurd hop h1
    · exact h1

theorem tracksMax_constructor (stored : Option String) (h0 : ℚ)
    (hst : toNumber (constructor stored).highScore = JSNum.fin h0) (hnn : 0 ≤ h0) :
    TracksMax (constructor stored) (max h0 ((constructor stored).score : ℚ)) := by
  refine ⟨h0, hst, rfl, fun _ => ?_⟩
  show ((0 : ℕ) : ℚ) ≤ h0
  simpa using hnn

theorem tracksMax_idle (g : Game) (M : ℚ) (h : TracksMax g M)
    (hidle : g.gameState ≠ GameState.playing) :
    toNumber g.highScore = JSNum.fin M := by
  obtain ⟨hv, h1, h2, h3⟩ := h
  rw [h1, h2, max_eq_left (h3 hidle)]

/-! ## A frame that scores does not end the session -/

theorem hitsPipe_false_iff (g : Game) (p : Pipe) :
    hitsPipe g p = false ↔
      ¬ (g.bird.x < p.x + g.pipeWidth ∧ g.bird.x + g.bird.width > p.x ∧
          g.bird.y < 0 + p.topHeight ∧ g.bird.y + g.bird.height > 0) ∧
      ¬ (g.bird.x < p.x + g.pipeWidth ∧ g.bird.x + g.bird.width > p.x ∧
          g.bird.y < p.bottomY + p.bottomHeight ∧ g.bird.y + g.bird.height > p.bottomY) := by
  simp only [hitsPipe, isColliding, topRect, bottomRect, Bird.toRect, Bool.or_eq_false_iff,
    Bool.and_eq_false_iff, decide_eq_false_iff_not, not_and_or]
  tauto

theorem hitsPipe_false_of_apart (g : Game) (p : Pipe)
    (h : p.x + g.pipeWidth ≤ g.bird.x ∨ g.bird.x + g.bird.width ≤ p.x) :
    hitsPipe g p = false := by
  rw [hitsPipe_false_iff]
  constructor
  · rintro ⟨h1, h2, _, _⟩
    rcases h with h | h
    · exact absurd h1 (not_lt.mpr h)
    · exact absurd h2 (not_lt.mpr h)
  · rintro ⟨h1, h2, _, _⟩
    rcases h with h | h
    · exact absurd h1 (not_lt.mpr h)
    · exact absurd h2 (not_lt.mpr h)

theorem sound_constructor (stored : Option String) : Sound (constructor stored) := by
  refine ⟨fun _ => ⟨rfl, rfl⟩, fun h => ?_, ?_, ?_, ?_, ?_⟩
  · exact GameState.noConfusion h
  · simp [constructor]
  · simp [constructor]; norm_num
  · intro p hp; exact absurd hp (List.not_mem_nil p)
  · intro p hp; exact absurd hp (List.not_mem_nil p)

theorem sound_restart (g : Game) : Sound (restart g) := by
  refine ⟨fun h => ?_, fun _ => ⟨?_, ?_, ?_⟩, ?_, ?_, ?_, ?_⟩
  · exact GameState.noConfusion h
  · simp [restart]
  · simp [restart]; norm_num
  · intro p hp; exact absurd hp (List.not_mem_nil p)
  · simp [restart]
  · simp [restart]; norm_num
  · intro p hp; exact absurd hp (List.not_mem_nil p)
  · intro p hp; exact absurd hp (List.not_mem_nil p)

theorem sound_handleInput (g : Game) (hj : g.bird.jump = -5) (h : Sound g) :
    Sound (handleInput g) := by
  obtain ⟨s1, s2, s3, s4, s5, s6⟩ := h
  unfold handleInput
  split
  · rename_i hst
    obtain ⟨hnil, hy⟩ := s1 hst
    refine ⟨fun hc => absurd hc (by simp [startGame]), fun _ => ⟨?_, ?_, ?_⟩, ?_, ?_, s5, s6⟩
    · simp [startGame, hy]
    · simp [startGame, hy]; norm_num
    · intro p hp
      have hp1 : p ∈ g.pipes := hp
      rw [hnil] at hp1
      exact absurd hp1 (List.not_mem_nil p)
    · simp [startGame, hj]
    · simp [startGame, hj, hy]; norm_num
  · rename_i hpl
    obtain ⟨hy0, hy1, hclear⟩ := s2 hpl
    refine ⟨fun hc => ?_, fun _ => ⟨hy0, hy1, hclear⟩, ?_, ?_, s5, s6⟩
    · have hc1 : g.gameState = GameState.start := hc
      rw [hpl] at hc1
      exact absurd hc1 (by decide)
    · simp [hj]
    · simp only [hj]
      have : (0 : ℚ) ≤ g.bird.y := hy0
      norm_num
      linarith
  · exact sound_restart g

theorem updateWorld_bird (g : Game) (r : ℚ) :
    (updateWorld g r).bird = (updatePhysics g).bird := by
  rw [updateWorld_frame g r]

theorem mem_updateWorld_pipes (g : Game) (r : ℚ) (q : Pipe)
    (hq : q ∈ (updateWorld g r).pipes) :
    ∃ p : Pipe, (p ∈ g.pipes ∨ p = newPipe g r) ∧
      p ∈ (if spawnDue (updatePhysics g) then g.pipes ++ [newPipe g r] else g.pipes) ∧
      q = movePipe g p := by
  rw [updateWorld_pipes, List.mem_filter, List.mem_map] at hq
  obtain ⟨⟨p, hp, rfl⟩, _⟩ := hq
  refine ⟨p, ?_, hp, rfl⟩
  split at hp
  · rw [List.mem_append, List.mem_singleton] at hp
    exact hp
  · exact Or.inl hp

/-- The parts of `Sound` that do not depend on `gameState`, after the physics
and pipe steps of a frame. -/
theorem updateWorld_sound_data (g : Game) (r : ℚ) (hc : ReferenceConstants g)
    (h : Sound g) (h0 : 0 ≤ r) (h1 : r < 1) :
    -5 ≤ (updateWorld g r).bird.velocity ∧
    (updateWorld g r).bird.velocity ^ 2 ≤ 25 + (updateWorld g r).bird.y ∧
    (∀ p ∈ (updateWorld g r).pipes, 50 ≤ p.topHeight ∧ p.topHeight < 350) ∧
    (∀ p ∈ (updateWorld g r).pipes, ∃ j : ℤ, p.x = 397 - 3 * (j : ℚ)) := by
  obtain ⟨c1, c2, _, c4, c5, _, _, _, _, c10, _⟩ := hc
  obtain ⟨_, _, s3, s4, s5, s6⟩ := h
  have hv : (updateWorld g r).bird.velocity = g.bird.velocity + 1 / 2 := by
    rw [updateWorld_bird]; simp [updatePhysics, c10]
  have hy : (updateWorld g r).bird.y = g.bird.y + (g.bird.velocity + 1 / 2) := by
    rw [updateWorld_bird]; simp [updatePhysics, c10]
  refine ⟨?_, ?_, ?_, ?_⟩
  · rw [hv]; linarith
  · rw [hv, hy]; nlinarith
  · intro q hq
    obtain ⟨p, hp, _, rfl⟩ := mem_updateWorld_pipes g r q hq
    show 50 ≤ p.topHeight ∧ p.topHeight < 350
    rcases hp with hp | hp
    · exact s5 p hp
    · rw [hp]
      simp only [newPipe, c2, c4]
      constructor <;> nlinarith
  · intro q hq
    obtain ⟨p, hp, _, rfl⟩ := mem_updateWorld_pipes g r q hq
    have hx : (movePipe g p).x = p.x - 3 := by simp [movePipe, c5]
    rw [hx]
    rcases hp with hp | hp
    · obtain ⟨j, hj⟩ := s6 p hp
      exact ⟨j + 1, by rw [hj]; push_cast; ring⟩
    · refine ⟨0, ?_⟩
      rw [hp]
      simp only [newPipe, c1]
      norm_num

theorem sound_update (g : Game) (r : ℚ) (hc : ReferenceConstants g) (h : Sound g)
    (h0 : 0 ≤ r) (h1 : r < 1) : Sound (update g r) := by
  by_cases hp : g.gameState = GameState.playing
  · obtain ⟨d3, d4, d5, d6⟩ := updateWorld_sound_data g r hc h h0 h1
    have hcw := referenceConstants_of_same hc (updateWorld_sameConstants g r)
    rw [update_eq g r hp]
    split
    · rw [gameOver_frame]
      exact ⟨fun hst => GameState.noConfusion hst, fun hpl => GameState.noConfusion hpl,
        d3, d4, d5, d6⟩
    · rename_i hno
      have hws : (updateWorld g r).gameState = GameState.playing := by
        rw [updateWorld_gameState]; exact hp
      refine ⟨fun hst => ?_, fun _ => ?_, d3, d4, d5, d6⟩
      · rw [hws] at hst
        exact GameState.noConfusion hst
      · have hoob : ¬ outOfBounds (updateWorld g r) = true := fun hb => hno (Or.inr hb)
        have hhit : ¬ (updateWorld g r).pipes.any (hitsPipe (updateWorld g r)) = true :=
          fun hb => hno (Or.inl hb)
        obtain ⟨_, w2, _, _, _, _, _, _, w9, _, _⟩ := hcw
        simp only [outOfBounds, w2, w9, Bool.or_eq_true, decide_eq_true_eq, not_or,
          not_lt] at hoob
        refine ⟨hoob.2, by linarith [hoob.1], ?_⟩
        intro p hpm
        by_contra hne
        exact hhit (List.any_eq_true.mpr ⟨p, hpm, by simpa using hne⟩)
  · have e : update g r = g := by unfold update; rw [if_pos hp]
    rw [e]; exact h

theorem reachable_sound {g : Game} (h : Reachable g) : Sound g := by
  induction h with
  | init stored => exact sound_constructor stored
  | @byInput g hr ih =>
    exact sound_handleInput g (reachable_referenceConstants hr).2.2.2.2.2.2.2.2.2.2 ih
  | byRestart _ _ => exact sound_restart _
  | @byUpdate g r hr h0 h1 ih => exact sound_update g r (reachable_referenceConstants hr) ih h0 h1

theorem chain_apart (ps : List Pipe)
    (hch : List.Chain' (fun a b : Pipe => b.x = a.x + 270) ps) :
    ∀ p ∈ ps, ∀ q ∈ ps, p.x = q.x ∨ p.x + 270 ≤ q.x ∨ q.x + 270 ≤ p.x := by
  haveI : IsTrans Pipe (fun a b : Pipe => a.x + 270 ≤ b.x) :=
    ⟨fun a b c h1 h2 => by linarith⟩
  have hpw : List.Pairwise (fun a b : Pipe => a.x + 270 ≤ b.x) ps := by
    rw [← List.chain'_iff_pairwise]
    exact List.Chain'.imp (fun a b hab => le_of_eq hab.symm) hch
  have hsym : Symmetric (fun a b : Pipe => a.x = b.x ∨ a.x + 270 ≤ b.x ∨ b.x + 270 ≤ a.x) := by
    intro a b hab
    rcases hab with h | h | h
    · exact Or.inl h.symm
    · exact Or.inr (Or.inr h)
    · exact Or.inr (Or.inl h)
  intro p hp q hq
  exact List.Pairwise.forall_of_forall hsym (fun x _ => Or.inl rfl)
    (hpw.imp (fun hab => Or.inr (Or.inl hab))) hp hq

/-- In a reachable playing state, a frame that raises the score leaves the game
playing: the pipe being scored overlapped the bird horizontally in the frame
before, so the bird was inside its gap, too far from the ground and the top to
leave the playfield in one frame, and every other pipe is `270` away. -/
theorem scoring_frame_keeps_playing (g : Game) (r : ℚ) (hr : Reachable g)
    (hp : g.gameState = GameState.playing) (hsc : (update g r).score ≠ g.score) :
    (update g r).gameState = GameState.playing := by
  have hc := reachable_referenceConstants hr
  obtain ⟨_, s2, s3, s4, s5, s6⟩ := reachable_sound hr
  obtain ⟨hy0, hy1, hclear⟩ := s2 hp
  obtain ⟨hchL, hpassL, _⟩ := (updateWorld_pipeTrain g r hc (reachable_pipeTrain hr)).1
  have hcw := referenceConstants_of_same hc (updateWorld_sameConstants g r)
  obtain ⟨c1, c2, c3, c4, c5, c6, c7, c8, c9, c10, c11⟩ := hc
  -- a pipe is scored in this frame
  rw [update_score, if_pos hp, updateWorld_score] at hsc
  have hne : (if spawnDue (updatePhysics g) then g.pipes ++ [newPipe g r] else g.pipes).filter
      (scoresNow g) ≠ [] := by
    intro hnil
    rw [hnil] at hsc
    exact hsc rfl
  obtain ⟨q, hqf⟩ := List.exists_mem_of_ne_nil _ hne
  rw [List.mem_filter] at hqf
  obtain ⟨hqL, hqs⟩ := hqf
  simp only [scoresNow, c3, c5, c7, Bool.and_eq_true, Bool.not_eq_true',
    decide_eq_true_eq] at hqs
  obtain ⟨hqp, hqx⟩ := hqs
  have hq20 : 20 ≤ q.x := by
    by_contra hlt
    have := hpassL q hqL (by linarith [not_le.mp hlt])
    rw [hqp] at this
    exact Bool.false_ne_true this
  have hqg : q ∈ g.pipes := by
    split at hqL
    · rcases List.mem_append.mp hqL with hm | hm
      · exact hm
      · rw [List.mem_singleton] at hm
        rw [hm] at hqx
        simp only [newPipe, c1] at hqx
        norm_num at hqx
    · exact hqL
  -- its left edge is at 22, so it overlapped the bird in the frame before
  obtain ⟨j, hj⟩ := s6 q hqg
  have hq22 : 22 ≤ q.x := by
    have h3 : (3 : ℚ) * (j : ℚ) ≤ 377 := by linarith
    have h4 : ((3 * j : ℤ) : ℚ) ≤ ((377 : ℤ) : ℚ) := by push_cast; exact h3
    have h5 : 3 * j ≤ 377 := by exact_mod_cast h4
    have h6 : j ≤ 125 := by omega
    have h7 : (j : ℚ) ≤ 125 := by exact_mod_cast h6
    linarith
  obtain ⟨htop, hbot⟩ := (hitsPipe_false_iff g q).mp (hclear q hqg)
  rw [c3, c7, c8, c9] at htop hbot
  obtain ⟨hg1, hg2⟩ := reachable_pipeGeometry hr q hqg
  rw [c4] at hg1 hg2
  rw [c2] at hg2
  obtain ⟨ht50, ht350⟩ := s5 q hqg
  have hytop : q.topHeight ≤ g.bird.y := by
    by_contra hlt
    exact htop ⟨by linarith, by linarith, by linarith [not_le.mp hlt], by linarith⟩
  have hybot : g.bird.y + 30 ≤ q.bottomY := by
    by_contra hlt
    exact hbot ⟨by linarith, by linarith, by linarith, not_le.mp hlt⟩
  have hv23 : g.bird.velocity ≤ 23 := by nlinarith
  -- the state after the frame
  have hvw : (updateWorld g r).bird.y = g.bird.y + (g.bird.velocity + 1 / 2) := by
    rw [updateWorld_bird]; simp [updatePhysics, c10]
  obtain ⟨_, w2, w3, _, _, _, w7, w8, w9, _, _⟩ := hcw
  have hoob : ¬ outOfBounds (updateWorld g r) = true := by
    simp only [outOfBounds, w2, w9, hvw, Bool.or_eq_true, decide_eq_true_eq, not_or, not_lt]
    constructor <;> linarith
  have hhit : ¬ (updateWorld g r).pipes.any (hitsPipe (updateWorld g r)) = true := by
    rw [List.any_eq_true]
    rintro ⟨p1, hp1, hh⟩
    obtain ⟨p, _, hpL, rfl⟩ := mem_updateWorld_pipes g r p1 hp1
    have hx : (movePipe g p).x = p.x - 3 := by simp [movePipe, c5]
    have hfalse : hitsPipe (updateWorld g r) (movePipe g p) = false := by
      apply hitsPipe_false_of_apart
      rw [w3, w7, w8, hx]
      rcases chain_apart _ hchL p hpL q hqL with h | h | h
      · exact Or.inl (by linarith)
      · exact Or.inl (by linarith)
      · exact Or.inr (by linarith)
    rw [hfalse] at hh
    exact Bool.false_ne_true hh
  rw [update_eq g r hp, if_neg (by rintro (h | h); exact hhit h; exact hoob h),
    updateWorld_gameState]
  exact hp

/-! ## The high score is the maximum of the scores seen -/

theorem run_reachable (ops : List Op) :
    ∀ g : Game, Reachable g → ValidDraws ops → Reachable (run g ops) := by
  induction ops with
  | nil => intro g h _; exact h
  | cons op ops ih =>
    intro g h hv
    have hrest : ValidDraws ops := fun o ho => hv o (List.mem_cons_of_mem op ho)
    have hop := hv op (List.mem_cons_self op ops)
    refine ih (op.apply g) ?_ hrest
    cases op with
    | input => exact Reachable.byInput h
    | restart => exact Reachable.byRestart h
    | update r =>
      simp only [Op.validDraw, Bool.and_eq_true, decide_eq_true_eq] at hop
      exact Reachable.byUpdate r h hop.1 hop.2

theorem apply_idle_keeps_score (g : Game) (op : Op) (hr : Reachable g)
    (hnp : (op.apply g).gameState ≠ GameState.playing) :
    (op.apply g).score = g.score := by
  cases op with
  | restart => exact absurd rfl hnp
  | input =>
    rcases handleInput_cases g with ⟨_, hplay, _, _⟩ | ⟨_, heq⟩
    · exact absurd hplay hnp
    · have hnp1 : (handleInput g).gameState ≠ GameState.playing := hnp
      rw [heq] at hnp1
      exact absurd rfl hnp1
  | update r =>
    have hnp1 : (update g r).gameState ≠ GameState.playing := hnp
    show (update g r).score = g.score
    by_cases hp : g.gameState = GameState.playing
    · by_contra hsc
      exact hnp1 (scoring_frame_keeps_playing g r hr hp hsc)
    · rw [update_score, if_neg hp]

/-- The two concrete runs used below, evaluated: `crashOps` ends with the high
score `0` although the score `1` was seen, and `twoSessionOps` ends its second
session after a first one with score `1`. -/
theorem session_runs_facts :
    ((∀ op ∈ crashOps, op.validDraw = true) ∧
      toNumber (constructor none).highScore = JSNum.fin 0 ∧
      (run (constructor none) crashOps).gameState = GameState.gameOver ∧
      toNumber (run (constructor none) crashOps).highScore = JSNum.fin 0 ∧
      maxScore 0 (statesAlong (constructor none) crashOps).dropLast = 1) ∧
    ((∀ op ∈ twoSessionOps, op.validDraw = true) ∧
      restartOnlyIdle (constructor none) twoSessionOps = true ∧
      (run (constructor none) twoSessionOps).gameState = GameState.gameOver ∧
      (run (constructor none) twoSessionOps).score = 0 ∧
      maxScore 0 (statesAlong (constructor none) twoSessionOps).dropLast = 1) := by
  decide!

theorem negative_stored_highScore :
    toNumber (constructor (some "-5")).highScore = JSNum.fin (-5) ∧
    (run (constructor (some "-5")) [Op.update 0]).gameState = GameState.start ∧
    toNumber (run (constructor (some "-5")) [Op.update 0]).highScore = JSNum.fin (-5) ∧
    maxScore (-5) (statesAlong (constructor (some "-5")) [Op.update 0]).dropLast = 0 := by
  decide!

/-- C15, as stated, fails.  Starting with no stored high score (`h0 = 0`), the
calls `crashOps` score one point, press restart while still playing and end
the next session with score `0`: the game is over, the high score reads `0`,
and the maximum of `h0` and the scores of the earlier states is `1`.  And with
the stored value `"-5"` the start state keeps the high score `-5` although the
score `0` has been observed. -/
theorem highScore_misses_score_lost_by_restart :
    (ValidDraws crashOps ∧
      toNumber (constructor none).highScore = JSNum.fin 0 ∧
      (run (constructor none) crashOps).gameState = GameState.gameOver ∧
      toNumber (run (constructor none) crashOps).highScore = JSNum.fin 0 ∧
      maxScore 0 (statesAlong (constructor none) crashOps).dropLast = 1) ∧
    (toNumber (constructor (some "-5")).highScore = JSNum.fin (-5) ∧
      (run (constructor (some "-5")) [Op.update 0]).gameState = GameState.start ∧
      toNumber (run (constructor (some "-5")) [Op.update 0]).highScore = JSNum.fin (-5) ∧
      maxScore (-5) (statesAlong (constructor (some "-5")) [Op.update 0]).dropLast = 0) :=
  ⟨session_runs_facts.1, negative_stored_highScore⟩

/-- C15, amended.  Start from the constructed game whose stored high score is
absent or reads as a number `h0 >= 0`, and take any sequence of `handleInput`,
`restart` and `update` calls, with draws in `[0, 1)`, in which `restart` is
only called outside the playing state.  Whenever the game is then not in the
playing state, the high score reads as the maximum of `h0` and the scores of
all earlier states of the sequence (which is also the maximum with the current
state included). -/
theorem highScore_is_max_of_scores_seen (stored : Option String) (h0 : ℚ) (ops : List Op)
    (hst : toNumber (constructor stored).highScore = JSNum.fin h0) (hnn : 0 ≤ h0)
    (hdraws : ValidDraws ops)
    (hidle : restartOnlyIdle (constructor stored) ops = true)
    (hnp : (run (constructor stored) ops).gameState ≠ GameState.playing) :
    toNumber (run (constructor stored) ops).highScore =
      JSNum.fin (maxScore h0 (statesAlong (constructor stored) ops).dropLast) ∧
    toNumber (run (constructor stored) ops).highScore =
      JSNum.fin (maxScore h0 (statesAlong (constructor stored) ops)) := by
  have hincl : ∀ ops1 : List Op, restartOnlyIdle (constructor stored) ops1 = true →
      (run (constructor stored) ops1).gameState ≠ GameState.playing →
      toNumber (run (constructor stored) ops1).highScore =
        JSNum.fin (maxScore h0 (statesAlong (constructor stored) ops1)) := by
    intro ops1 hi hn
    exact tracksMax_idle _ _
      (tracksMax_run ops1 (constructor stored) h0
        (tracksMax_constructor stored h0 hst hnn) hi) hn
  refine ⟨?_, hincl ops hidle hnp⟩
  rcases List.eq_nil_or_concat ops with hnil | ⟨front, op, hcat⟩
  · rw [hnil]
    exact hst
  · rw [List.concat_eq_append] at hcat
    rw [hcat] at hidle hnp hdraws ⊢
    rw [hincl _ hidle hnp, statesAlong_append_singleton, List.dropLast_concat,
      maxScore_append_singleton]
    have hfront : ValidDraws front := fun o ho => hdraws o (List.mem_append_left _ ho)
    have hreach : Reachable (run (constructor stored) front) :=
      run_reachable front _ (Reachable.init stored) hfront
    rw [run_append_singleton] at hnp ⊢
    rw [apply_idle_keeps_score _ op hreach hnp,
      max_eq_left (score_le_maxScore _ h0 _ (run_mem_statesAlong front _))]

/-- Witness for C15, amended: two sessions from an empty storage slot, the
first ending with score `1`, the second, started with the restart button on
the game-over screen, ending with score `0`; the high score then reads `1`,
the maximum over the earlier states. -/
theorem highScore_is_max_of_scores_seen_witness :
    ValidDraws twoSessionOps ∧
    restartOnlyIdle (constructor none) twoSessionOps = true ∧
    (run (constructor none) twoSessionOps).score = 0 ∧
    maxScore 0 (statesAlong (constructor none) twoSessionOps).dropLast = 1 ∧
    toNumber (run (constructor none) twoSessionOps).highScore =
      JSNum.fin (maxScore 0 (statesAlong (constructor none) twoSessionOps).dropLast) :=
  ⟨session_runs_facts.2.1, session_runs_facts.2.2.1, session_runs_facts.2.2.2.2.1,
    session_runs_facts.2.2.2.2.2,
    (highScore_is_max_of_scores_seen none 0 twoSessionOps session_runs_facts.1.2.1
      (le_refl 0) session_runs_facts.2.1 session_runs_facts.2.2.1
      (by rw [session_runs_facts.2.2.2.1]; decide)).1⟩

end FlappyBird
